import Mathlib

/-!
Verification of the cursed-ammo variant derivation engine
(src/create_cursed_ammo.py of the CE_Cursed_Ammo repository).

The XML documents handled by the script are modelled by the inductive
type Elem below, mirroring xml.etree.ElementTree elements: a tag, an
ordered attribute list, an optional text value and an ordered child
list.  In-place mutation of an element in the Python code is modelled
by pure functions Elem to Elem; element lookup (find, findall) is
modelled by the corresponding list searches.

Numeric fields are modelled as exact rational numbers.  Python floats
are binary doubles; the configuration constants of the script
(0.4, 0.92, ...) are written here as the exact rationals they denote,
and the rounding functions below implement the round-half-to-even
semantics of the Python round builtin exactly.  Pythonic float parsing
is modelled for decimal literals (optional sign, digits, optional
fractional part); exponent notation, infinities and nan are outside
the model, as are crashes on fields whose text attribute is None
(such a field is modelled as left unchanged via Option.map).
-/

/-- An XML element: tag, attributes, optional text, ordered children.
Tail text and the XML prolog play no role in the verified logic and are
not modelled. -/
inductive Elem : Type where
  | node (tag : String) (attrs : List (String × String)) (text : Option String)
      (children : List Elem)

def Elem.tag : Elem → String
  | .node t _ _ _ => t

def Elem.attrs : Elem → List (String × String)
  | .node _ a _ _ => a

def Elem.text : Elem → Option String
  | .node _ _ x _ => x

def Elem.children : Elem → List Elem
  | .node _ _ _ c => c

mutual

def Elem.decEq : (a b : Elem) → Decidable (a = b)
  | .node t1 a1 x1 c1, .node t2 a2 x2 c2 =>
    if h1 : t1 = t2 then
      if h2 : a1 = a2 then
        if h3 : x1 = x2 then
          match Elem.decEqList c1 c2 with
          | isTrue h4 => isTrue (by rw [h1, h2, h3, h4])
          | isFalse h4 => isFalse (by intro h; injection h; contradiction)
        else isFalse (by intro h; injection h; contradiction)
      else isFalse (by intro h; injection h; contradiction)
    else isFalse (by intro h; injection h; contradiction)

def Elem.decEqList : (a b : List Elem) → Decidable (a = b)
  | [], [] => isTrue rfl
  | [], _ :: _ => isFalse (by intro h; injection h)
  | _ :: _, [] => isFalse (by intro h; injection h)
  | x :: xs, y :: ys =>
    match Elem.decEq x y, Elem.decEqList xs ys with
    | isTrue h1, isTrue h2 => isTrue (by rw [h1, h2])
    | isFalse h1, _ => isFalse (by intro h; injection h; contradiction)
    | isTrue _, isFalse h2 => isFalse (by intro h; injection h; contradiction)

end

instance : DecidableEq Elem := Elem.decEq

/-- Replace the text of an element (elem.text = value in Python). -/
def Elem.withText (x : Option String) : Elem → Elem
  | .node t a _ c => .node t a x c

/-- Replace the child list of an element. -/
def Elem.withChildren (cs : List Elem) : Elem → Elem
  | .node t a x _ => .node t a x cs

/-- elem.get(key) on attributes; models the presence test of
ThingDef[@ParentName] style predicates as well. -/
def Elem.attrVal (k : String) (e : Elem) : Option String :=
  (e.attrs.find? (fun p => p.1 == k)).map (fun p => p.2)

/-- elem.find(tag): first direct child with the given tag. -/
def Elem.findTag (t : String) (e : Elem) : Option Elem :=
  e.children.find? (fun c => c.tag == t)

/-- elem.find(tag).text combined: None if the child is absent or has
no text. -/
def Elem.childText (t : String) (e : Elem) : Option String :=
  (e.findTag t).bind Elem.text

/-- Apply f to the first element of the list satisfying p (the Python
pattern of mutating the element object returned by find). -/
def modifyFirst (p : α → Bool) (f : α → α) : List α → List α
  | [] => []
  | x :: xs => if p x then f x :: xs else x :: modifyFirst p f xs

/-- Remove the first element of the list satisfying p
(parent.remove(parent.find(tag)) in Python). -/
def removeFirst (p : α → Bool) : List α → List α
  | [] => []
  | x :: xs => if p x then xs else x :: removeFirst p xs

/-- Mutate the first direct child with the given tag, in place. -/
def Elem.modifyChild (t : String) (f : Elem → Elem) (e : Elem) : Elem :=
  e.withChildren (modifyFirst (fun c => c.tag == t) f e.children)

/-- parent.remove(parent.find(tag)) when present. -/
def Elem.removeFirstChild (t : String) (e : Elem) : Elem :=
  e.withChildren (removeFirst (fun c => c.tag == t) e.children)

/-- parent.append(child) / ET.SubElement: append at the end. -/
def Elem.appendChild (e : Elem) (c : Elem) : Elem :=
  e.withChildren (e.children ++ [c])

mutual

/-- All proper descendants of an element in document (pre-)order;
the element itself is excluded, matching the .// XPath axis as used
on the document root. -/
def Elem.descendants : Elem → List Elem
  | .node _ _ _ cs => descendantsList cs

def descendantsList : List Elem → List Elem
  | [] => []
  | c :: cs => c :: c.descendants ++ descendantsList cs

end

/-- Insert x after the first child with the given tag, or at the end
when no such child exists (the damageDef insertion logic). -/
def insertAfterTag (t : String) (x : Elem) : List Elem → List Elem
  | [] => [x]
  | c :: cs => if c.tag == t then c :: x :: cs else c :: insertAfterTag t x cs

/-- Split a list around its first element satisfying p. -/
def splitFirst (p : α → Bool) : List α → Option (List α × α × List α)
  | [] => none
  | x :: xs =>
    if p x then some ([], x, xs)
    else (splitFirst p xs).map (fun y => (x :: y.1, y.2.1, y.2.2))

/-! ## Numeric semantics (Python round / int / str) -/

/-- The round builtin of Python on a rational value: round half to
even (banker's rounding). -/
def pyRound (q : ℚ) : ℤ :=
  let f := ⌊q⌋
  let r := q - (f : ℚ)
  if r < 1/2 then f
  else if 1/2 < r then f + 1
  else if f % 2 = 0 then f else f + 1

/-- The int builtin of Python on a rational value: truncation toward
zero. -/
def pyTrunc (q : ℚ) : ℤ :=
  if 0 ≤ q then ⌊q⌋ else ⌈q⌉

/-- round(q, 2) in Python: round half to even at the hundredths
place, returning the number of hundredths. -/
def pyRoundHundredths (q : ℚ) : ℤ :=
  pyRound (q * 100)

/-- str.rstrip(c) with a single strip character. -/
def rstripChar (c : Char) (s : String) : String :=
  String.mk ((s.toList.reverse.dropWhile (fun x => x == c)).reverse)

/-- Render n hundredths with exactly two decimal places, as the
Python format specifier :.2f does for the exact value n / 100. -/
def formatHundredths (n : ℤ) : String :=
  let sign := if n < 0 then "-" else ""
  let a := n.natAbs
  let frac := a % 100
  sign ++ toString (a / 100) ++ "." ++
    (if frac < 10 then "0" else "") ++ toString frac

/-- The blunt-penetration rendering of the script:
f-string of round(v, 2) with :.2f, then .rstrip of zeros, then of the
decimal point. -/
def formatBlunt (q : ℚ) : String :=
  rstripChar '.' (rstripChar '0' (formatHundredths (pyRoundHundredths q)))

/-! ## Parsing (Python int() / float() on element text) -/

def digitVal (c : Char) : ℕ := c.toNat - '0'.toNat

def natOfDigits (l : List Char) : ℕ :=
  l.foldl (fun a c => 10 * a + digitVal c) 0

/-- Parse a nonempty all-digit character list. -/
def parseDigits (l : List Char) : Option ℕ :=
  if l ≠ [] ∧ l.all Char.isDigit then some (natOfDigits l) else none

/-- int(s) in Python: surrounding whitespace, optional sign, decimal
digits.  (Underscore digit separators are outside the model.) -/
def parseIntStr (s : String) : Option ℤ :=
  match s.trim.toList with
  | '-' :: rest => (parseDigits rest).map (fun n => -(n : ℤ))
  | '+' :: rest => (parseDigits rest).map (fun n => (n : ℤ))
  | l => (parseDigits l).map (fun n => (n : ℤ))

/-- int(text) where text may be None (raising TypeError, which every
call site catches). -/
def parseIntOpt (s : Option String) : Option ℤ :=
  s.bind parseIntStr

/-- Split a character list at its first dot, if any. -/
def splitAtDot (l : List Char) : List Char × Option (List Char) :=
  match l.span (fun c => c ≠ '.') with
  | (a, []) => (a, none)
  | (a, _ :: b) => (a, some b)

/-- Unsigned decimal float literal: digits, digits.digits, digits.
or .digits -/
def parseUnsignedFloat (l : List Char) : Option ℚ :=
  match splitAtDot l with
  | (ip, none) => (parseDigits ip).map (fun n => (n : ℚ))
  | (ip, some fp) =>
    if (ip ≠ [] ∨ fp ≠ []) ∧ ip.all Char.isDigit ∧ fp.all Char.isDigit then
      some ((natOfDigits ip : ℚ) + (natOfDigits fp : ℚ) / (10 : ℚ) ^ fp.length)
    else none

/-- float(s) in Python restricted to plain decimal literals. -/
def parseFloatStr (s : String) : Option ℚ :=
  match s.trim.toList with
  | '-' :: rest => (parseUnsignedFloat rest).map (fun q => -q)
  | '+' :: rest => parseUnsignedFloat rest
  | l => parseUnsignedFloat l

/-- float(text) where text may be None (TypeError, caught at every
call site). -/
def parseFloatOpt (s : Option String) : Option ℚ :=
  s.bind parseFloatStr

/-! ## The naming convention: splitting on underscores -/

/-- str.split of Python with separator, on characters: no collapsing
of adjacent separators, and the empty string yields one empty part. -/
def splitU : List Char → List (List Char)
  | [] => [[]]
  | c :: cs =>
    if c = '_' then [] :: splitU cs
    else
      match splitU cs with
      | [] => [[c]]
      | h :: t => (c :: h) :: t

/-- The join of str joined by single underscores. -/
def joinU : List (List Char) → List Char
  | [] => []
  | [x] => x
  | x :: xs => x ++ '_' :: joinU xs

/-- The identifier rewrite performed at the four defName / cookoff
call sites of create_cursed_ammo_variant:
parts = old.split of underscore; base = join of parts without the
last; result = base + underscore + key. -/
def replaceLastSeg (s key : String) : String :=
  String.mk (joinU ((splitU s.toList).dropLast) ++ '_' :: key.toList)

theorem splitU_ne_nil (l : List Char) : splitU l ≠ [] := by
  induction l with
  | nil => simp [splitU]
  | cons c cs ih =>
    simp only [splitU]
    split
    · simp
    · cases h : splitU cs with
      | nil => simp
      | cons h t => simp

theorem splitU_append_underscore (xs ys : List Char) :
    splitU (xs ++ '_' :: ys) = splitU xs ++ splitU ys := by
  induction xs with
  | nil => simp [splitU]
  | cons c cs ih =>
    by_cases hc : c = '_'
    · subst hc
      simp [splitU, ih]
    · simp only [List.cons_append, splitU, if_neg hc, List.append_eq]
      rw [ih]
      cases h : splitU cs with
      | nil => exact absurd h (splitU_ne_nil cs)
      | cons x t => simp [h]

theorem splitU_no_underscore (ys : List Char) (h : '_' ∉ ys) :
    splitU ys = [ys] := by
  induction ys with
  | nil => rfl
  | cons c cs ih =>
    simp only [List.mem_cons, not_or] at h
    have hc : ¬c = '_' := fun hh => h.1 hh.symm
    simp only [splitU, if_neg hc, ih h.2]

theorem joinU_splitU (l : List Char) : joinU (splitU l) = l := by
  induction l with
  | nil => rfl
  | cons c cs ih =>
    by_cases hc : c = '_'
    · subst hc
      simp only [splitU, if_pos rfl]
      cases h : splitU cs with
      | nil => exact absurd h (splitU_ne_nil cs)
      | cons x xs =>
        rw [h] at ih
        simp only [joinU]
        cases xs with
        | nil => simp [joinU, ← ih]
        | cons y ys => simp [joinU, ← ih]
    · simp only [splitU, if_neg hc]
      cases h : splitU cs with
      | nil => exact absurd h (splitU_ne_nil cs)
      | cons x xs =>
        rw [h] at ih
        cases xs with
        | nil =>
          simp only [joinU] at ih ⊢
          rw [ih]
        | cons y ys =>
          simp only [joinU, List.cons_append] at ih ⊢
          rw [ih]

/-- The last underscore-separated segment is replaced by the key:
the characterization of replaceLastSeg used by the naming-convention
claims. -/
theorem replaceLastSeg_eq (pre last key : String) (h : '_' ∉ last.toList) :
    replaceLastSeg (pre ++ "_" ++ last) key = pre ++ "_" ++ key := by
  apply String.ext
  show joinU ((splitU (pre ++ "_" ++ last).toList).dropLast) ++ '_' :: key.toList = _
  have hdata : (pre ++ "_" ++ last).toList = pre.toList ++ '_' :: last.toList := by
    show (pre ++ "_" ++ last).data = pre.data ++ '_' :: last.data
    simp [String.data_append]
  rw [hdata, splitU_append_underscore, splitU_no_underscore _ h,
    List.dropLast_concat, joinU_splitU]
  show _ = (pre ++ "_" ++ key).data
  simp [String.data_append]

/-! ## The regex substitutions of the script -/

/-- Skip to just past the first closing parenthesis, if any. -/
def findClose : List Char → Option (List Char)
  | [] => none
  | c :: t => if c = ')' then some t else findClose t

theorem findClose_length : ∀ (l t : List Char), findClose l = some t → t.length < l.length := by
  intro l
  induction l with
  | nil => intro t h; simp [findClose] at h
  | cons c cs ih =>
    intro t h
    simp only [findClose] at h
    split at h
    · cases h; simp
    · exact Nat.lt_trans (ih t h) (Nat.lt_succ_self _)

/-- re.sub of the pattern backslash-open-paren, any run of
non-close-paren characters, backslash-close-paren — replacing every
non-overlapping match (Python re.sub replaces all occurrences) by the
fixed replacement string.  The fuel argument only bounds the scan and
equals the remaining length at every call. -/
def subParensF (repl : List Char) : ℕ → List Char → List Char
  | _, [] => []
  | 0, l => l
  | n + 1, c :: rest =>
    if c = '(' then
      match findClose rest with
      | some after => repl ++ subParensF repl n after
      | none => c :: rest
    else c :: subParensF repl n rest

/-- The paren substitution at full fuel. -/
def subParens (repl : List Char) (l : List Char) : List Char :=
  subParensF repl l.length l

/-- The label substitution re.sub on strings, with the replacement
string as used by the script. -/
def pyRegexSubParens (repl : String) (s : String) : String :=
  String.mk (subParens repl.toList s.toList)

/-- Greedy run of characters satisfying p, with the remainder. -/
def takeRun (p : Char → Bool) : List Char → List Char × List Char
  | [] => ([], [])
  | c :: t => if p c then ((c :: (takeRun p t).1), (takeRun p t).2) else ([], c :: t)

theorem takeRun_snd_length (p : Char → Bool) :
    ∀ l : List Char, (takeRun p l).2.length ≤ l.length := by
  intro l
  induction l with
  | nil => simp [takeRun]
  | cons c cs ih =>
    simp only [takeRun]
    split
    · exact Nat.le_trans ih (Nat.le_succ _)
    · simp

theorem takeRun_snd_lt (p : Char → Bool) (l : List Char)
    (h : (takeRun p l).1 ≠ []) : (takeRun p l).2.length < l.length := by
  cases l with
  | nil => simp [takeRun] at h
  | cons c cs =>
    by_cases hp : p c
    · simp only [takeRun, if_pos hp]
      exact Nat.lt_succ_of_le (takeRun_snd_length p cs)
    · simp [takeRun, hp] at h

/-- re.sub of the case-insensitive pattern: the literal word Craft,
a nonempty whitespace run (both captured as group one), then a
nonempty digit run; replaced by group one followed by the new count.
All non-overlapping matches are replaced. -/
def craftSubF (newCount : List Char) : ℕ → List Char → List Char
  | _, [] => []
  | 0, l => l
  | n + 1, l =>
    match l with
    | c1 :: c2 :: c3 :: c4 :: c5 :: rest =>
      if (c1.toLower = 'c' ∧ c2.toLower = 'r' ∧ c3.toLower = 'a' ∧
          c4.toLower = 'f' ∧ c5.toLower = 't')
          ∧ (takeRun Char.isWhitespace rest).1 ≠ []
          ∧ (takeRun Char.isDigit (takeRun Char.isWhitespace rest).2).1 ≠ [] then
        c1 :: c2 :: c3 :: c4 :: c5 ::
          ((takeRun Char.isWhitespace rest).1 ++ newCount ++
            craftSubF newCount n
              (takeRun Char.isDigit (takeRun Char.isWhitespace rest).2).2)
      else c1 :: craftSubF newCount n (c2 :: c3 :: c4 :: c5 :: rest)
    | c :: rest => c :: craftSubF newCount n rest
    | [] => []

/-- The Craft-number substitution at full fuel. -/
def craftSub (newCount : List Char) (l : List Char) : List Char :=
  craftSubF newCount l.length l

/-- The description count synchronisation: replace the digits of
every case-insensitive Craft-number phrase with the new count. -/
def pyCraftSub (n : ℤ) (s : String) : String :=
  String.mk (craftSub (toString n).toList s.toList)

/-! ## The variant rule configuration (VARIANT_CONFIGS) -/

/-- The damage_types configuration value: either a flat mapping
(treated as secondary damages) or a nested mapping with optional
primary and secondary sub-mappings. -/
inductive DamageTypesCfg : Type where
  | flat (entries : List (String × ℚ))
  | nested (primary : Option (List (String × ℚ)))
      (secondary : Option (List (String × ℚ)))

/-- The normalisation branch of create_cursed_ammo_variant: nested
mappings contribute their sub-dicts (defaulting to empty), a flat
dict is treated as secondary entries only. -/
def normalizeDamageTypes : DamageTypesCfg → List (String × ℚ) × List (String × ℚ)
  | .nested p s => (p.getD [], s.getD [])
  | .flat m => ([], m)

/-- One entry of VARIANT_CONFIGS.  Optional fields model optional
dictionary keys (the in-config tests of the script). -/
structure VariantConfig : Type where
  enabled : Bool
  base_ammo_class : String
  sharp_penetration_modifier : Option ℚ
  damage_modifier : ℚ
  blunt_penetration_modifier : Option ℚ
  recipe_materials : List (String × ℚ)
  label : String
  label_short : String
  texture_suffix : String
  damage_types : Option DamageTypesCfg
  damage_type : Option String
  secondary_damage : Option (String × ℤ)
  amount_produced_modifier : Option ℚ

/-- The EAC_Bioferrite rule of VARIANT_CONFIGS. -/
def bioferriteConfig : VariantConfig where
  enabled := true
  base_ammo_class := "IncendiaryAP"
  sharp_penetration_modifier := some (3/2)
  damage_modifier := 1
  blunt_penetration_modifier := some 1
  recipe_materials := [("Bioferrite", 2/5), ("Uranium", 2/5), ("Steel", 1/5)]
  label := "bioferrite penetrator"
  label_short := "Bioferrite"
  texture_suffix := "EAC_Bioferrite"
  damage_types := some (.nested (some [("Bullet", 4/5)]) none)
  damage_type := none
  secondary_damage := none
  amount_produced_modifier := some 1

/-- The EAC_Silver rule of VARIANT_CONFIGS. -/
def silverConfig : VariantConfig where
  enabled := true
  base_ammo_class := "ArmorPiercing"
  sharp_penetration_modifier := some (3/5)
  damage_modifier := 9/10
  blunt_penetration_modifier := some (23/25)
  recipe_materials := [("Silver", 10), ("Steel", 1/10), ("Shard", 1)]
  label := "consecrated silver"
  label_short := "Consecrated"
  texture_suffix := "EAC_Silver"
  damage_types := some (.nested none (some [("EMP", 1/10), ("Psychic", 5/2)]))
  damage_type := none
  secondary_damage := none
  amount_produced_modifier := some (1/5)

/-- The process-wide rule table, in declaration order. -/
def VARIANT_CONFIGS : List (String × VariantConfig) :=
  [("EAC_Bioferrite", bioferriteConfig), ("EAC_Silver", silverConfig)]

/-! ## DocumentIndex: locating the baseline triad -/

/-- find_ap_ammo_def: first pass matches defName prefixed by
Ammo_ followed by the file-derived family name, second pass relaxes
to any Ammo_ prefix; both require the discriminator ammoClass to
equal the configured base class. -/
def find_ap_ammo_def (root : Elem) (ammo_type base_ammo_class : String) : Option Elem :=
  let cands := root.descendants.filter
    (fun d => d.tag == "ThingDef" && d.attrVal "Class" == some "CombatExtended.AmmoDef")
  let matches1 := cands.find? (fun d =>
    (match d.childText "defName" with
     | some t => t ≠ "" && t.startsWith ("Ammo_" ++ ammo_type ++ "_")
     | none => false)
    && d.childText "ammoClass" == some base_ammo_class)
  match matches1 with
  | some x => some x
  | none => cands.find? (fun d =>
      (match d.childText "defName" with
       | some t => t ≠ "" && t.startsWith "Ammo_"
       | none => false)
      && d.childText "ammoClass" == some base_ammo_class)

/-- find_ap_bullet_def: bullet ThingDef carrying a ParentName
attribute whose defName is the ammo defName with the Ammo_ token
replaced by Bullet_, and which owns a projectile block. -/
def find_ap_bullet_def (root : Elem) (def_name : String) : Option Elem :=
  let expected := def_name.replace "Ammo_" "Bullet_"
  (root.descendants.filter
    (fun d => d.tag == "ThingDef" && (d.attrVal "ParentName").isSome)).find?
    (fun d =>
      match d.childText "defName" with
      | some t => t ≠ "" && t == expected && (d.findTag "projectile").isSome
      | none => false)

/-- find_ap_recipe: RecipeDef whose defName is the ammo defName with
the Ammo_ token replaced by MakeAmmo_. -/
def find_ap_recipe (root : Elem) (def_name : String) : Option Elem :=
  let expected := def_name.replace "Ammo_" "MakeAmmo_"
  (root.descendants.filter (fun d => d.tag == "RecipeDef")).find?
    (fun r => r.childText "defName" == some expected)

/-- get_ammo_set_info: first CombatExtended.AmmoSetDef whose defName
carries the AmmoSet_ convention yields the internal family name and
the aggregate identifier. -/
def get_ammo_set_info (root : Elem) : Option (String × String) :=
  (root.descendants.filter (fun d => d.tag == "CombatExtended.AmmoSetDef")).findSome?
    (fun s =>
      match s.childText "defName" with
      | some t =>
        if t ≠ "" ∧ t.startsWith "AmmoSet_" then some (t.replace "AmmoSet_" "", t)
        else none
      | none => none)

/-- deep_copy_element serialises and re-parses an element; on the
modelled structure (tags, attributes, texts, children) this is the
identity producing an independent value. -/
def deep_copy_element (e : Elem) : Elem := e

/-! ## VariantDeriver: the transforms of create_cursed_ammo_variant -/

mutual

/-- Locate, within the subtree rooted at an element, the first
graphicData descendant owning a texPath child (the .//graphicData/texPath
lookup) and set that texPath text; none if no match in this subtree. -/
def setTexPathIn (s : String) : Elem → Option Elem
  | .node t a x cs =>
    if t == "graphicData" && cs.any (fun c => c.tag == "texPath") then
      some (Elem.node t a x
        (modifyFirst (fun c => c.tag == "texPath") (Elem.withText (some s)) cs))
    else
      match setTexPathList s cs with
      | some cs2 => some (Elem.node t a x cs2)
      | none => none

def setTexPathList (s : String) : List Elem → Option (List Elem)
  | [] => none
  | c :: cs =>
    match setTexPathIn s c with
    | some c2 => some (c2 :: cs)
    | none =>
      match setTexPathList s cs with
      | some cs2 => some (c :: cs2)
      | none => none

end

/-- The texture path rewrite: find .//graphicData/texPath and replace
its text; no-op when the path matches nothing. -/
def Elem.updateTexPath (s : String) (e : Elem) : Elem :=
  match setTexPathList s e.children with
  | some cs2 => e.withChildren cs2
  | none => e

/-- The replacement string of the label re.sub calls:
open paren, the short label of the rule, close paren. -/
def parenShort (cfg : VariantConfig) : String :=
  "(" ++ cfg.label_short ++ ")"

/-- The ammo definition rewrite: defName suffix swap, label rebuild,
ammoClass set to the variant key, cookOffProjectile derived from the
bullet defName, texture path rebuilt. -/
def transformAmmo (ammo_type variant_key : String) (cfg : VariantConfig)
    (ammo_folder bullet_def_name : String) (a : Elem) : Elem :=
  ((((a.modifyChild "defName"
      (fun el => el.withText (el.text.map (fun t => replaceLastSeg t variant_key)))).modifyChild
    "label"
      (fun el => el.withText (some (ammo_type ++ " " ++ parenShort cfg)))).modifyChild
    "ammoClass" (fun el => el.withText (some variant_key))).modifyChild
    "cookOffProjectile"
      (fun el => el.withText (some (replaceLastSeg bullet_def_name variant_key)))).updateTexPath
    ("Things/Ammo/" ++ ammo_folder ++ "/" ++ cfg.texture_suffix)

/-- Sharp penetration: parseable text is multiplied and rounded, or
overridden by a modifier of at least 1000, then rendered as int;
unparseable text is left unchanged. -/
def sharpStep (cfg : VariantConfig) (p : Elem) : Elem :=
  p.modifyChild "armorPenetrationSharp" (fun el =>
    match parseFloatOpt el.text with
    | none => el
    | some old =>
      let m := cfg.sharp_penetration_modifier.getD 1
      let nv : ℚ := if 1000 ≤ m then m else (pyRound (old * m) : ℚ)
      el.withText (some (toString (pyTrunc nv))))

/-- Blunt penetration: only when the rule specifies the modifier;
multiplied (or overridden at the 1000 threshold), rounded to two
decimals and rendered with trailing zeros and point stripped. -/
def bluntStep (cfg : VariantConfig) (p : Elem) : Elem :=
  match cfg.blunt_penetration_modifier with
  | none => p
  | some bm =>
    p.modifyChild "armorPenetrationBlunt" (fun el =>
      match parseFloatOpt el.text with
      | none => el
      | some old =>
        let nb : ℚ := if 1000 ≤ bm then bm else old * bm
        el.withText (some (formatBlunt nb)))

/-- Base damage: multiplied by the damage modifier and rounded. -/
def damageStep (cfg : VariantConfig) (p : Elem) : Elem :=
  p.modifyChild "damageAmountBase" (fun el =>
    match parseFloatOpt el.text with
    | none => el
    | some old =>
      el.withText (some (toString (pyRound (old * cfg.damage_modifier)))))

/-- Primary damage override: the first declared entry sets or creates
the damageDef field (inserted after damageAmountBase) and rescales the
base damage, feeding the new value forward. -/
def primaryStep (primary_cfg : List (String × ℚ)) (p : Elem) (base : Option ℚ) :
    Elem × Option ℚ :=
  match primary_cfg with
  | [] => (p, base)
  | (dn, mult) :: _ =>
    let p1 :=
      if (p.findTag "damageDef").isSome then
        p.modifyChild "damageDef" (Elem.withText (some dn))
      else
        p.withChildren (insertAfterTag "damageAmountBase"
          (Elem.node "damageDef" [] (some dn) []) p.children)
    match base with
    | none => (p1, none)
    | some b =>
      let nv := pyRound (b * mult)
      (p1.modifyChild "damageAmountBase" (Elem.withText (some (toString nv))),
        some (nv : ℚ))

/-- One secondary damage list item. -/
def mkSecondaryLi (dn : String) (amt : ℤ) : Elem :=
  Elem.node "li" [] none
    [Elem.node "def" [] (some dn) [], Elem.node "amount" [] (some (toString amt)) []]

/-- Secondary damage entries: when the map is nonempty and the base
damage parsed, the existing secondaryDamage block is removed and a new
one holding one item per map entry (in declaration order) is appended,
unless the new list is empty. -/
def secondaryStep (secondary_cfg : List (String × ℚ)) (p : Elem) (base : Option ℚ) :
    Elem :=
  match base with
  | none => p
  | some b =>
    if secondary_cfg = [] then p
    else
      let p1 := p.removeFirstChild "secondaryDamage"
      let entries : List (String × ℤ) :=
        secondary_cfg.map (fun nm => (nm.1, pyRound (b * nm.2)))
      if entries.isEmpty then p1
      else p1.appendChild
        (Elem.node "secondaryDamage" [] none
          (entries.map (fun nm => mkSecondaryLi nm.1 nm.2)))

/-- The damage_types block: re-read the (already rescaled) base
damage, normalise the mapping, apply the primary override and then the
secondary entries.  The legacy damage_type branch sets or creates only
the damageDef field. -/
def damageTypesStep (cfg : VariantConfig) (p : Elem) : Elem :=
  match cfg.damage_types with
  | some dt =>
    let base := parseFloatOpt (p.childText "damageAmountBase")
    let pc := (normalizeDamageTypes dt).1
    let sc := (normalizeDamageTypes dt).2
    let r := primaryStep pc p base
    secondaryStep sc r.1 r.2
  | none =>
    match cfg.damage_type with
    | some dn =>
      if (p.findTag "damageDef").isSome then
        p.modifyChild "damageDef" (Elem.withText (some dn))
      else
        p.withChildren (insertAfterTag "damageAmountBase"
          (Elem.node "damageDef" [] (some dn) []) p.children)
    | none => p

/-- The legacy EAC_Silver secondary_damage block (dead under the
current configuration, kept for faithfulness): replaces the
secondaryDamage block by the single configured entry. -/
def legacySecondaryStep (variant_key : String) (cfg : VariantConfig) (p : Elem) : Elem :=
  match cfg.secondary_damage with
  | some ds =>
    if variant_key = "EAC_Silver" then
      (p.removeFirstChild "secondaryDamage").appendChild
        (Elem.node "secondaryDamage" [] none [mkSecondaryLi ds.1 ds.2])
    else p
  | none => p

/-- All projectile-block updates, in source order: sharp penetration,
blunt penetration, base damage, damage typing, legacy secondary. -/
def transformProjectile (variant_key : String) (cfg : VariantConfig) (p : Elem) : Elem :=
  legacySecondaryStep variant_key cfg
    (damageTypesStep cfg (damageStep cfg (bluntStep cfg (sharpStep cfg p))))

/-- The bullet definition rewrite: defName suffix swap, label
parenthetical substitution, projectile update. -/
def transformBullet (variant_key : String) (cfg : VariantConfig) (b : Elem) : Elem :=
  ((b.modifyChild "defName"
      (fun el => el.withText (el.text.map (fun t => replaceLastSeg t variant_key)))).modifyChild
    "label"
      (fun el => el.withText (el.text.map (pyRegexSubParens (parenShort cfg))))).modifyChild
    "projectile" (transformProjectile variant_key cfg)

/-! ## IngredientRecomputer and the recipe rewrite -/

/-- One rebuilt ingredient entry: a filter/thingDefs/li block naming
the material, followed by a count element with the given text
(None when the Python code assigns a missing text through). -/
def mkIngredient (mat : String) (cnt : Option String) : Elem :=
  Elem.node "li" [] none
    [Elem.node "filter" [] none
      [Elem.node "thingDefs" [] none [Elem.node "li" [] (some mat) []]],
     Elem.node "count" [] cnt []]

/-- The first-ingredient count extraction with the hard-coded 82
fallback: the fallback applies when there is no ingredient entry or
the first entry has no count element; an existing count element
contributes its text attribute as is. -/
def ficOf (ing : Elem) : Option String :=
  match (ing.children.filter (fun c => c.tag == "li")).head? with
  | some first =>
    match first.findTag "count" with
    | some c => c.text
    | none => some "82"
  | none => some "82"

/-- The summed original ingredient cost: every entry with a count
element whose text parses as an integer contributes it; all others
contribute nothing. -/
def totalCostOf (ing : Elem) : ℤ :=
  ((ing.children.filter (fun c => c.tag == "li")).map
    (fun li => (parseIntOpt (li.childText "count")).getD 0)).sum

/-- The ingredients rewrite: proportional reallocation for
EAC_Bioferrite (remove every li entry, then one entry per material of
the hard-coded order with count equal to the rounded share of the
total), fixed substitution for EAC_Silver (Silver with the first
original count, then one Shard). -/
def transformIngredients (variant_key : String) (cfg : VariantConfig) (ing : Elem) :
    Elem :=
  if variant_key = "EAC_Bioferrite" then
    let total := totalCostOf ing
    ing.withChildren
      (ing.children.filter (fun c => !(c.tag == "li")) ++
        (["Bioferrite", "Uranium", "Steel"].map (fun mat =>
          let prop := ((cfg.recipe_materials.find? (fun mp => mp.1 == mat)).map
            (fun mp => mp.2)).getD 0
          mkIngredient mat (some (toString (pyRound ((total : ℚ) * prop)))))))
  else if variant_key = "EAC_Silver" then
    ing.withChildren
      (ing.children.filter (fun c => !(c.tag == "li")) ++
        [mkIngredient "Silver" (ficOf ing), mkIngredient "Shard" (some "1")])
  else ing

/-- The fixedIngredientFilter rewrite: clear the li entries of the
thingDefs block and append the material list of the variant
(EAC_Bioferrite gets the proportional materials, every other key the
Silver/Shard pair, matching the else branch of the script). -/
def transformFixedFilter (variant_key : String) (ff : Elem) : Elem :=
  ff.modifyChild "thingDefs" (fun td =>
    let mats := if variant_key = "EAC_Bioferrite"
      then ["Bioferrite", "Uranium", "Steel"] else ["Silver", "Shard"]
    td.withChildren
      (td.children.filter (fun c => !(c.tag == "li")) ++
        mats.map (fun m => Elem.node "li" [] (some m) [])))

/-- The produced count computed for the products rewrite: the parsed
original count scaled and rounded when the rule has the modifier,
the parsed original otherwise, none when parsing failed. -/
def producedCount (cfg : VariantConfig) (origCount : Option ℤ) : Option ℤ :=
  match origCount, cfg.amount_produced_modifier with
  | some c, some m => some (pyRound ((c : ℚ) * m))
  | some c, none => some c
  | none, _ => none

/-- The products rewrite applied to the whole recipe clone: the first
products entry whose tag starts with Ammo_ is removed; a new entry
keyed by the derived ammo name is appended, carrying the recomputed
count or the stripped original text; when a recomputed count exists
the description Craft-number phrase is synchronised. -/
def transformProducts (cfg : VariantConfig) (new_ammo_name : String) (r : Elem) : Elem :=
  match r.findTag "products" with
  | none => r
  | some prod =>
    match splitFirst (fun c => c.tag.startsWith "Ammo_") prod.children with
    | none => r
    | some pep =>
      let origText := (pep.2.1.text.getD "").trim
      let origCount := parseIntStr origText
      let produced := producedCount cfg origCount
      let newEntry := Elem.node new_ammo_name []
        (some (match produced with | some n => toString n | none => origText)) []
      let r1 := r.modifyChild "products"
        (Elem.withChildren (pep.1 ++ pep.2.2 ++ [newEntry]))
      match produced with
      | some n =>
        r1.modifyChild "description"
          (fun el => el.withText (el.text.map (pyCraftSub n)))
      | none => r1

/-- The recipe definition rewrite, in source order: defName suffix
swap; label, description and jobString parenthetical substitution;
ingredients recompute; fixedIngredientFilter rebuild; products
rewrite (which may synchronise the description count). -/
def transformRecipe (variant_key : String) (cfg : VariantConfig)
    (new_ammo_name : String) (r : Elem) : Elem :=
  transformProducts cfg new_ammo_name
    ((((((r.modifyChild "defName"
        (fun el => el.withText (el.text.map (fun t => replaceLastSeg t variant_key)))).modifyChild
      "label"
        (fun el => el.withText (el.text.map (pyRegexSubParens (parenShort cfg))))).modifyChild
      "description"
        (fun el => el.withText (el.text.map (pyRegexSubParens (parenShort cfg))))).modifyChild
      "jobString"
        (fun el => el.withText (el.text.map (pyRegexSubParens (parenShort cfg))))).modifyChild
      "ingredients" (transformIngredients variant_key cfg)).modifyChild
      "fixedIngredientFilter" (transformFixedFilter variant_key))

/-! ## create_cursed_ammo_variant and the per-document loop -/

/-- create_cursed_ammo_variant: locate the baseline triad (skip with
None when any member is missing), then derive the three rewritten
clones. -/
def create_cursed_ammo_variant (root : Elem) (ammo_type variant_key : String)
    (cfg : VariantConfig) (ammo_folder : String) : Option (Elem × Elem × Elem) :=
  match find_ap_ammo_def root ammo_type cfg.base_ammo_class with
  | none => none
  | some ap_ammo =>
    let ammo_def_name := (ap_ammo.childText "defName").getD ""
    match find_ap_bullet_def root ammo_def_name, find_ap_recipe root ammo_def_name with
    | some ap_bullet, some ap_recipe =>
      let bullet_def_name := (ap_bullet.childText "defName").getD ""
      let cursed_ammo := transformAmmo ammo_type variant_key cfg ammo_folder
        bullet_def_name (deep_copy_element ap_ammo)
      let cursed_bullet := transformBullet variant_key cfg (deep_copy_element ap_bullet)
      let new_ammo_name := (cursed_ammo.childText "defName").getD ""
      let cursed_recipe := transformRecipe variant_key cfg new_ammo_name
        (deep_copy_element ap_recipe)
      some (cursed_ammo, cursed_bullet, cursed_recipe)
    | _, _ => none

/-- The three members of a derived triad in output order, or nothing
for a skipped variant. -/
def triadList : Option (Elem × Elem × Elem) → List Elem
  | some t => [t.1, t.2.1, t.2.2]
  | none => []

/-- The per-document loop of process_input_file: every enabled rule of
the table contributes its derived triad (when the baseline was found)
to the output document. -/
def variantOutputs (root : Elem) (ammo_type ammo_folder : String) : List Elem :=
  VARIANT_CONFIGS.flatMap (fun kc =>
    if kc.2.enabled then
      triadList (create_cursed_ammo_variant root ammo_type kc.1 kc.2 ammo_folder)
    else [])

/-- State-threaded rendering of create_cursed_ammo_variant: the first
component is the source document after the call.  Every transform of
the script is applied to the deep copies only, so the document state
is returned untouched along every path. -/
def create_cursed_ammo_variant_st (root : Elem) (ammo_type variant_key : String)
    (cfg : VariantConfig) (ammo_folder : String) :
    Elem × Option (Elem × Elem × Elem) :=
  match find_ap_ammo_def root ammo_type cfg.base_ammo_class with
  | none => (root, none)
  | some ap_ammo =>
    let ammo_def_name := (ap_ammo.childText "defName").getD ""
    match find_ap_bullet_def root ammo_def_name, find_ap_recipe root ammo_def_name with
    | some ap_bullet, some ap_recipe =>
      let bullet_def_name := (ap_bullet.childText "defName").getD ""
      let cursed_ammo := transformAmmo ammo_type variant_key cfg ammo_folder
        bullet_def_name (deep_copy_element ap_ammo)
      let cursed_bullet := transformBullet variant_key cfg (deep_copy_element ap_bullet)
      let new_ammo_name := (cursed_ammo.childText "defName").getD ""
      let cursed_recipe := transformRecipe variant_key cfg new_ammo_name
        (deep_copy_element ap_recipe)
      (root, some (cursed_ammo, cursed_bullet, cursed_recipe))
    | _, _ => (root, none)

/-! ## PatchEmitter: generate_patch_file -/

/-- Lexicographic comparison of registration pairs, as Python sorted
orders tuples of strings. -/
def pairLe (a b : String × String) : Bool :=
  decide (a.1 < b.1) || (a.1 == b.1 && decide (a.2 ≤ b.2))

/-- The sort applied to the collected registration pairs. -/
def sortPairs (l : List (String × String)) : List (String × String) :=
  l.mergeSort pairLe

/-- One registration operation: a PatchOperationAdd targeting the
ammoTypes list of the named AmmoSetDef, holding the hard-coded
Bioferrite and Silver entries for the internal family name. -/
def mkPatchOperation (p : String × String) : Elem :=
  Elem.node "Operation" [("Class", "PatchOperationAdd")] none
    [Elem.node "xpath" []
      (some ("Defs/CombatExtended.AmmoSetDef[defName=\"" ++ p.2 ++ "\"]/ammoTypes")) [],
     Elem.node "value" [] none
      [Elem.node ("Ammo_" ++ p.1 ++ "_EAC_Bioferrite") []
        (some ("Bullet_" ++ p.1 ++ "_EAC_Bioferrite")) [],
       Elem.node ("Ammo_" ++ p.1 ++ "_EAC_Silver") []
        (some ("Bullet_" ++ p.1 ++ "_EAC_Silver")) []]]

/-- generate_patch_file: nothing is emitted for an empty pair list;
otherwise one operation per pair, in sorted pair order. -/
def generate_patch_file (infos : List (String × String)) : Option Elem :=
  if infos.isEmpty then none
  else some (Elem.node "Patch" [] none ((sortPairs infos).map mkPatchOperation))

/-! ## Structural lemmas about the element operations -/

theorem Elem.tag_withText (e : Elem) (o : Option String) : (e.withText o).tag = e.tag := by
  cases e; rfl

theorem Elem.text_withText (e : Elem) (o : Option String) : (e.withText o).text = o := by
  cases e; rfl

theorem Elem.tag_withChildren (e : Elem) (cs : List Elem) :
    (e.withChildren cs).tag = e.tag := by
  cases e; rfl

theorem Elem.text_withChildren (e : Elem) (cs : List Elem) :
    (e.withChildren cs).text = e.text := by
  cases e; rfl

theorem Elem.children_withChildren (e : Elem) (cs : List Elem) :
    (e.withChildren cs).children = cs := by
  cases e; rfl

theorem Elem.tag_modifyChild (e : Elem) (t : String) (f : Elem → Elem) :
    (e.modifyChild t f).tag = e.tag := by
  cases e; rfl

theorem Elem.children_modifyChild (e : Elem) (t : String) (f : Elem → Elem) :
    (e.modifyChild t f).children = modifyFirst (fun c => c.tag == t) f e.children := by
  cases e; rfl

theorem Elem.tag_removeFirstChild (e : Elem) (t : String) :
    (e.removeFirstChild t).tag = e.tag := by
  cases e; rfl

theorem Elem.tag_appendChild (e c : Elem) : (e.appendChild c).tag = e.tag := by
  cases e; rfl

theorem find?_modifyFirst_self (p : α → Bool) (f : α → α) (hp : ∀ x, p (f x) = p x) :
    ∀ l : List α, (modifyFirst p f l).find? p = (l.find? p).map f := by
  intro l
  induction l with
  | nil => rfl
  | cons x xs ih =>
    by_cases hx : p x
    · simp [modifyFirst, hx, List.find?_cons_of_pos, hp]
    · simp only [modifyFirst, if_neg hx]
      rw [List.find?_cons_of_neg _ (by simp [hx]), List.find?_cons_of_neg _ (by simp [hx]), ih]

theorem find?_modifyFirst_of_disj (q p : α → Bool) (f : α → α)
    (hq : ∀ x, q (f x) = q x) (hdisj : ∀ x, q x = true → p x = false) :
    ∀ l : List α, (modifyFirst p f l).find? q = l.find? q := by
  intro l
  induction l with
  | nil => rfl
  | cons x xs ih =>
    by_cases hx : p x
    · simp only [modifyFirst, if_pos hx]
      by_cases hqx : q x
      · exact absurd (hdisj x hqx) (by simp [hx])
      · rw [List.find?_cons_of_neg _ (by simp [hq, hqx]),
          List.find?_cons_of_neg _ (by simp [hqx])]
    · simp only [modifyFirst, if_neg hx]
      by_cases hqx : q x
      · rw [List.find?_cons_of_pos _ (by simp [hqx]), List.find?_cons_of_pos _ (by simp [hqx])]
      · rw [List.find?_cons_of_neg _ (by simp [hqx]), List.find?_cons_of_neg _ (by simp [hqx]), ih]

/-- A tag-preserving rewrite of one child leaves every differently
tagged lookup unchanged. -/
theorem findTag_modifyChild_ne (e : Elem) (t t2 : String) (f : Elem → Elem)
    (hf : ∀ x, (f x).tag = x.tag) (hne : t ≠ t2) :
    (e.modifyChild t2 f).findTag t = e.findTag t := by
  show ((e.modifyChild t2 f).children.find? _) = _
  rw [Elem.children_modifyChild]
  exact find?_modifyFirst_of_disj _ _ f (fun x => by simp [hf x])
    (fun x hx => by
      simp only [beq_iff_eq] at hx
      simp [hx, hne]) e.children

theorem childText_modifyChild_ne (e : Elem) (t t2 : String) (f : Elem → Elem)
    (hf : ∀ x, (f x).tag = x.tag) (hne : t ≠ t2) :
    (e.modifyChild t2 f).childText t = e.childText t := by
  unfold Elem.childText
  rw [findTag_modifyChild_ne e t t2 f hf hne]

theorem findTag_modifyChild_self (e : Elem) (t : String) (f : Elem → Elem)
    (hf : ∀ x, (f x).tag = x.tag) :
    (e.modifyChild t f).findTag t = (e.findTag t).map f := by
  show ((e.modifyChild t f).children.find? _) = _
  rw [Elem.children_modifyChild]
  exact find?_modifyFirst_self _ f (fun x => by simp [hf x]) e.children

/-- Rewriting the text of the first child with tag t through g. -/
theorem childText_modifyChild_mapText (e : Elem) (t : String) (g : String → String) :
    (e.modifyChild t (fun el => el.withText (el.text.map g))).childText t
      = (e.childText t).map g := by
  unfold Elem.childText
  rw [findTag_modifyChild_self e t _ (fun x => Elem.tag_withText x _)]
  cases e.findTag t with
  | none => rfl
  | some d => simp [Elem.text_withText]

/-- Setting the text of the first child with tag t to a constant. -/
theorem childText_modifyChild_setText (e : Elem) (t : String) (s : String)
    (hx : (e.findTag t).isSome) :
    (e.modifyChild t (fun el => el.withText (some s))).childText t = some s := by
  unfold Elem.childText
  rw [findTag_modifyChild_self e t _ (fun x => Elem.tag_withText x _)]
  cases h : e.findTag t with
  | none => rw [h] at hx; simp at hx
  | some d => simp [Elem.text_withText]

/-! ## Preservation lemmas for the texture-path rewrite -/

theorem setTexPathIn_tag_text (s : String) (e e2 : Elem)
    (h : setTexPathIn s e = some e2) : e2.tag = e.tag ∧ e2.text = e.text := by
  cases e with
  | node t a x cs =>
    simp only [setTexPathIn] at h
    split at h
    · cases h; exact ⟨rfl, rfl⟩
    · split at h
      · cases h; exact ⟨rfl, rfl⟩
      · cases h

theorem forall2_tag_text_refl :
    ∀ l : List Elem, List.Forall₂ (fun a b => a.tag = b.tag ∧ a.text = b.text) l l := by
  intro l
  induction l with
  | nil => exact List.Forall₂.nil
  | cons c cs ih => exact List.Forall₂.cons ⟨rfl, rfl⟩ ih

theorem setTexPathList_preserve (s : String) :
    ∀ (l l2 : List Elem), setTexPathList s l = some l2 →
      List.Forall₂ (fun a b => a.tag = b.tag ∧ a.text = b.text) l l2 := by
  intro l
  induction l with
  | nil => intro l2 h; simp [setTexPathList] at h
  | cons c cs ih =>
    intro l2 h
    simp only [setTexPathList] at h
    split at h
    · cases h
      rename_i c2 hc2
      have := setTexPathIn_tag_text s c c2 hc2
      exact List.Forall₂.cons ⟨this.1.symm, this.2.symm⟩ (forall2_tag_text_refl _)
    · split at h
      · cases h
        rename_i cs2 hcs2
        exact List.Forall₂.cons ⟨rfl, rfl⟩ (ih cs2 hcs2)
      · cases h

theorem find?_bind_text_of_forall2 (t : String) :
    ∀ (l l2 : List Elem),
      List.Forall₂ (fun a b => a.tag = b.tag ∧ a.text = b.text) l l2 →
      ((l2.find? (fun c => c.tag == t)).bind Elem.text)
        = ((l.find? (fun c => c.tag == t)).bind Elem.text) := by
  intro l l2 h
  induction h with
  | nil => rfl
  | cons hab _ ih =>
    rename_i a b l1 l2
    by_cases ht : a.tag = t
    · rw [List.find?_cons_of_pos _ (by simp [ht]),
        List.find?_cons_of_pos _ (by simp [hab.1, ht])]
      simp [hab.2]
    · rw [List.find?_cons_of_neg _ (by simp [ht]),
        List.find?_cons_of_neg _ (by simp [hab.1, ht]), ih]

theorem childText_updateTexPath (e : Elem) (s t : String) :
    (e.updateTexPath s).childText t = e.childText t := by
  unfold Elem.updateTexPath
  cases h : setTexPathList s e.children with
  | none => rfl
  | some cs2 =>
    unfold Elem.childText Elem.findTag
    rw [Elem.children_withChildren]
    exact find?_bind_text_of_forall2 t e.children cs2 (setTexPathList_preserve s e.children cs2 h)

/-! ## Tag preservation of the projectile and recipe transforms -/

theorem tag_sharpStep (cfg : VariantConfig) (p : Elem) :
    (sharpStep cfg p).tag = p.tag := Elem.tag_modifyChild p _ _

theorem tag_bluntStep (cfg : VariantConfig) (p : Elem) :
    (bluntStep cfg p).tag = p.tag := by
  unfold bluntStep
  cases cfg.blunt_penetration_modifier with
  | none => rfl
  | some bm => exact Elem.tag_modifyChild p _ _

theorem tag_damageStep (cfg : VariantConfig) (p : Elem) :
    (damageStep cfg p).tag = p.tag := Elem.tag_modifyChild p _ _

theorem tag_primaryStep (pc : List (String × ℚ)) (p : Elem) (base : Option ℚ) :
    (primaryStep pc p base).1.tag = p.tag := by
  unfold primaryStep
  cases pc with
  | nil => rfl
  | cons hd tl =>
    cases hd with
    | mk dn mult =>
      cases base with
      | none =>
        simp only
        split
        · exact Elem.tag_modifyChild p _ _
        · exact Elem.tag_withChildren p _
      | some b =>
        simp only
        rw [Elem.tag_modifyChild]
        split
        · exact Elem.tag_modifyChild p _ _
        · exact Elem.tag_withChildren p _

theorem tag_secondaryStep (sc : List (String × ℚ)) (p : Elem) (base : Option ℚ) :
    (secondaryStep sc p base).tag = p.tag := by
  unfold secondaryStep
  cases base with
  | none => rfl
  | some b =>
    simp only
    split
    · rfl
    · split
      · exact Elem.tag_removeFirstChild p _
      · rw [Elem.tag_appendChild, Elem.tag_removeFirstChild]

theorem tag_damageTypesStep (cfg : VariantConfig) (p : Elem) :
    (damageTypesStep cfg p).tag = p.tag := by
  unfold damageTypesStep
  cases cfg.damage_types with
  | some dt =>
    simp only
    rw [tag_secondaryStep, tag_primaryStep]
  | none =>
    cases cfg.damage_type with
    | some dn =>
      simp only
      split
      · exact Elem.tag_modifyChild p _ _
      · exact Elem.tag_withChildren p _
    | none => rfl

theorem tag_legacySecondaryStep (variant_key : String) (cfg : VariantConfig) (p : Elem) :
    (legacySecondaryStep variant_key cfg p).tag = p.tag := by
  unfold legacySecondaryStep
  cases cfg.secondary_damage with
  | none => rfl
  | some ds =>
    simp only
    split
    · rw [Elem.tag_appendChild, Elem.tag_removeFirstChild]
    · rfl

theorem tag_transformProjectile (variant_key : String) (cfg : VariantConfig) (p : Elem) :
    (transformProjectile variant_key cfg p).tag = p.tag := by
  unfold transformProjectile
  rw [tag_legacySecondaryStep, tag_damageTypesStep, tag_damageStep, tag_bluntStep,
    tag_sharpStep]

theorem tag_transformIngredients (variant_key : String) (cfg : VariantConfig) (e : Elem) :
    (transformIngredients variant_key cfg e).tag = e.tag := by
  unfold transformIngredients
  split
  · exact Elem.tag_withChildren e _
  · split
    · exact Elem.tag_withChildren e _
    · rfl

theorem tag_transformFixedFilter (variant_key : String) (e : Elem) :
    (transformFixedFilter variant_key e).tag = e.tag := Elem.tag_modifyChild e _ _

/-- The products rewrite touches only the products and description
children: every other child-text lookup is unchanged. -/
theorem childText_transformProducts_ne (cfg : VariantConfig) (nm : String) (r : Elem)
    (t : String) (h1 : t ≠ "products") (h2 : t ≠ "description") :
    (transformProducts cfg nm r).childText t = r.childText t := by
  unfold transformProducts
  split
  · rfl
  · split
    · rfl
    · simp only
      split
      · rw [childText_modifyChild_ne _ _ _ _ (fun x => Elem.tag_withText x _) h2,
          childText_modifyChild_ne _ _ _ _ (fun x => Elem.tag_withChildren x _) h1]
      · rw [childText_modifyChild_ne _ _ _ _ (fun x => Elem.tag_withChildren x _) h1]

/-! ## The defName and cookOffProjectile fields of the derived triad -/

theorem childText_transformAmmo_defName (ammo_type variant_key ammo_folder bdn : String)
    (cfg : VariantConfig) (ap : Elem) :
    (transformAmmo ammo_type variant_key cfg ammo_folder bdn ap).childText "defName"
      = (ap.childText "defName").map (fun t => replaceLastSeg t variant_key) := by
  unfold transformAmmo
  rw [childText_updateTexPath,
    childText_modifyChild_ne _ _ _ _ (fun x => Elem.tag_withText x _) (by decide),
    childText_modifyChild_ne _ _ _ _ (fun x => Elem.tag_withText x _) (by decide),
    childText_modifyChild_ne _ _ _ _ (fun x => Elem.tag_withText x _) (by decide),
    childText_modifyChild_mapText]

theorem childText_transformAmmo_cookoff (ammo_type variant_key ammo_folder bdn : String)
    (cfg : VariantConfig) (ap : Elem) (hcook : (ap.findTag "cookOffProjectile").isSome) :
    (transformAmmo ammo_type variant_key cfg ammo_folder bdn ap).childText
        "cookOffProjectile" = some (replaceLastSeg bdn variant_key) := by
  unfold transformAmmo
  rw [childText_updateTexPath]
  apply childText_modifyChild_setText
  rw [findTag_modifyChild_ne _ _ _ _ (fun x => Elem.tag_withText x _) (by decide),
    findTag_modifyChild_ne _ _ _ _ (fun x => Elem.tag_withText x _) (by decide),
    findTag_modifyChild_ne _ _ _ _ (fun x => Elem.tag_withText x _) (by decide)]
  exact hcook

theorem childText_transformBullet_defName (variant_key : String) (cfg : VariantConfig)
    (ab : Elem) :
    (transformBullet variant_key cfg ab).childText "defName"
      = (ab.childText "defName").map (fun t => replaceLastSeg t variant_key) := by
  unfold transformBullet
  rw [childText_modifyChild_ne _ _ _ _ (tag_transformProjectile variant_key cfg) (by decide),
    childText_modifyChild_ne _ _ _ _ (fun x => Elem.tag_withText x _) (by decide),
    childText_modifyChild_mapText]

theorem childText_transformRecipe_defName (variant_key : String) (cfg : VariantConfig)
    (nm : String) (r : Elem) :
    (transformRecipe variant_key cfg nm r).childText "defName"
      = (r.childText "defName").map (fun t => replaceLastSeg t variant_key) := by
  unfold transformRecipe
  rw [childText_transformProducts_ne _ _ _ _ (by decide) (by decide),
    childText_modifyChild_ne _ _ _ _ (tag_transformFixedFilter variant_key) (by decide),
    childText_modifyChild_ne _ _ _ _ (tag_transformIngredients variant_key cfg) (by decide),
    childText_modifyChild_ne _ _ _ _ (fun x => Elem.tag_withText x _) (by decide),
    childText_modifyChild_ne _ _ _ _ (fun x => Elem.tag_withText x _) (by decide),
    childText_modifyChild_ne _ _ _ _ (fun x => Elem.tag_withText x _) (by decide),
    childText_modifyChild_mapText]

/-- Claim C1: for every well-formed baseline triad (all three members
located by the index, defNames present, and the baseline
cookOffProjectile reference equal to the bullet defName) and any
variant rule, the derived ammo, bullet and recipe identifiers and the
rewritten cookOffProjectile reference each equal the corresponding
baseline identifier with its last underscore-separated segment
replaced by the rule key; the final conjunct states the last-segment
replacement property of the rewrite itself. -/
theorem variant_identifier_rewrite
    (root : Elem) (ammo_type variant_key ammo_folder nmA nmB nmR : String)
    (cfg : VariantConfig) (ap ab ar a b r : Elem)
    (hfa : find_ap_ammo_def root ammo_type cfg.base_ammo_class = some ap)
    (hA : ap.childText "defName" = some nmA)
    (hfb : find_ap_bullet_def root nmA = some ab)
    (hfr : find_ap_recipe root nmA = some ar)
    (hB : ab.childText "defName" = some nmB)
    (hR : ar.childText "defName" = some nmR)
    (hcook : ap.childText "cookOffProjectile" = some nmB)
    (h : create_cursed_ammo_variant root ammo_type variant_key cfg ammo_folder
        = some (a, b, r)) :
    a.childText "defName" = some (replaceLastSeg nmA variant_key) ∧
    b.childText "defName" = some (replaceLastSeg nmB variant_key) ∧
    r.childText "defName" = some (replaceLastSeg nmR variant_key) ∧
    a.childText "cookOffProjectile" = some (replaceLastSeg nmB variant_key) ∧
    (∀ stem seg : String, '_' ∉ seg.toList →
      replaceLastSeg (stem ++ "_" ++ seg) variant_key = stem ++ "_" ++ variant_key) := by
  unfold create_cursed_ammo_variant at h
  rw [hfa] at h
  simp only [hA, Option.getD_some] at h
  rw [hfb, hfr] at h
  simp only [hB, Option.getD_some, deep_copy_element, Option.some.injEq,
    Prod.mk.injEq] at h
  obtain ⟨ha, hb, hr2⟩ := h
  have hcooksome : (ap.findTag "cookOffProjectile").isSome := by
    unfold Elem.childText at hcook
    cases hft : ap.findTag "cookOffProjectile" with
    | none => rw [hft] at hcook; simp at hcook
    | some d => simp
  refine ⟨?_, ?_, ?_, ?_, fun stem seg hseg => replaceLastSeg_eq stem seg variant_key hseg⟩
  · rw [← ha, childText_transformAmmo_defName, hA]
    rfl
  · rw [← hb, childText_transformBullet_defName, hB]
    rfl
  · rw [← hr2, childText_transformRecipe_defName, hR]
    rfl
  · rw [← ha]
    exact childText_transformAmmo_cookoff ammo_type variant_key ammo_folder nmB cfg ap
      hcooksome

/-! ## A concrete source document for instantiating the theorems -/

def sampleAmmoDef : Elem :=
  .node "ThingDef" [("Class", "CombatExtended.AmmoDef")] none
    [.node "defName" [] (some "Ammo_Test_AP") [],
     .node "label" [] (some "Test cartridge (AP)") [],
     .node "ammoClass" [] (some "ArmorPiercing") [],
     .node "cookOffProjectile" [] (some "Bullet_Test_AP") [],
     .node "graphicData" [] none
       [.node "texPath" [] (some "Things/Ammo/Rifle/AP") []]]

def sampleBulletDef : Elem :=
  .node "ThingDef" [("ParentName", "BaseBullet")] none
    [.node "defName" [] (some "Bullet_Test_AP") [],
     .node "label" [] (some "bullet (AP)") [],
     .node "projectile" [] none
       [.node "damageAmountBase" [] (some "20") [],
        .node "armorPenetrationSharp" [] (some "40") [],
        .node "armorPenetrationBlunt" [] (some "1.5") [],
        .node "secondaryDamage" [] none
          [.node "li" [] none
            [.node "def" [] (some "Old") [], .node "amount" [] (some "3") []]]]]

def sampleRecipeDef : Elem :=
  .node "RecipeDef" [] none
    [.node "defName" [] (some "MakeAmmo_Test_AP") [],
     .node "label" [] (some "make Test (AP) cartridge") [],
     .node "description" [] (some "Craft 500 Test (AP) rounds.") [],
     .node "jobString" [] (some "Making Test (AP) cartridges.") [],
     .node "ingredients" [] none
       [.node "li" [] none
         [.node "filter" [] none
           [.node "thingDefs" [] none [.node "li" [] (some "Steel") []]],
          .node "count" [] (some "80") []]],
     .node "fixedIngredientFilter" [] none
       [.node "thingDefs" [] none [.node "li" [] (some "Steel") []]],
     .node "products" [] none [.node "Ammo_Test_AP" [] (some "500") []]]

def sampleDoc : Elem := .node "Defs" [] none [sampleAmmoDef, sampleBulletDef, sampleRecipeDef]

/-- Witness for the C1 theorem at the concrete sample document and the
EAC_Silver rule. -/
theorem variant_identifier_rewrite_witness :
    (create_cursed_ammo_variant sampleDoc "Test" "EAC_Silver" silverConfig "Rifle").map
        (fun t => (t.1.childText "defName", t.2.1.childText "defName",
          t.2.2.childText "defName", t.1.childText "cookOffProjectile"))
      = some (some "Ammo_Test_EAC_Silver", some "Bullet_Test_EAC_Silver",
          some "MakeAmmo_Test_EAC_Silver", some "Bullet_Test_EAC_Silver") := by
  rcases hc : create_cursed_ammo_variant sampleDoc "Test" "EAC_Silver" silverConfig "Rifle"
    with _ | ⟨a, b, r⟩
  · exact absurd hc (by with_unfolding_all decide)
  · have h := variant_identifier_rewrite sampleDoc "Test" "EAC_Silver" "Rifle"
      "Ammo_Test_AP" "Bullet_Test_AP" "MakeAmmo_Test_AP" silverConfig
      sampleAmmoDef sampleBulletDef sampleRecipeDef a b r
      (by with_unfolding_all decide) (by with_unfolding_all decide)
      (by with_unfolding_all decide) (by with_unfolding_all decide)
      (by with_unfolding_all decide) (by with_unfolding_all decide)
      (by with_unfolding_all decide) hc
    obtain ⟨h1, h2, h3, h4, _⟩ := h
    simp only [Option.map_some']
    rw [h1, h2, h3, h4]
    with_unfolding_all decide

/-! ## Claim C2: the penetration number semantics -/

theorem pyTrunc_intCast (n : ℤ) : pyTrunc (n : ℚ) = n := by
  unfold pyTrunc
  split
  · exact Int.floor_intCast n
  · exact Int.ceil_intCast n

theorem childText_sharpStep (cfg : VariantConfig) (p : Elem) (m x : ℚ) (sx : String)
    (hm : cfg.sharp_penetration_modifier = some m)
    (hsx : p.childText "armorPenetrationSharp" = some sx)
    (hx : parseFloatStr sx = some x) :
    (sharpStep cfg p).childText "armorPenetrationSharp"
      = some (toString (pyTrunc (if 1000 ≤ m then m else (pyRound (x * m) : ℚ)))) := by
  unfold sharpStep
  unfold Elem.childText at hsx ⊢
  rw [findTag_modifyChild_self _ _ _ ?hf]
  case hf =>
    intro el
    cases hpe : parseFloatOpt el.text with
    | none => rfl
    | some old => exact Elem.tag_withText el _
  cases hft : p.findTag "armorPenetrationSharp" with
  | none => rw [hft] at hsx; simp at hsx
  | some el =>
    rw [hft] at hsx
    simp only [Option.some_bind] at hsx
    simp only [Option.map_some', Option.some_bind, parseFloatOpt, hsx, hx, hm,
      Option.getD_some, Elem.text_withText]

theorem childText_bluntStep (cfg : VariantConfig) (p : Elem) (bm y : ℚ) (sy : String)
    (hbm : cfg.blunt_penetration_modifier = some bm)
    (hsy : p.childText "armorPenetrationBlunt" = some sy)
    (hy : parseFloatStr sy = some y) :
    (bluntStep cfg p).childText "armorPenetrationBlunt"
      = some (formatBlunt (if 1000 ≤ bm then bm else y * bm)) := by
  unfold bluntStep
  rw [hbm]
  unfold Elem.childText at hsy ⊢
  rw [findTag_modifyChild_self _ _ _ ?hf]
  case hf =>
    intro el
    cases hpe : parseFloatOpt el.text with
    | none => rfl
    | some old => exact Elem.tag_withText el _
  cases hft : p.findTag "armorPenetrationBlunt" with
  | none => rw [hft] at hsy; simp at hsy
  | some el =>
    rw [hft] at hsy
    simp only [Option.some_bind] at hsy
    simp only [Option.map_some', Option.some_bind, parseFloatOpt, hsy, hy,
      Elem.text_withText]

/-- Counterexample to claim C2 as stated: for the blunt-penetration
field with parseable old value 1.5 and the EAC_Silver modifier 0.92,
the script stores the two-decimal rendering of 1.5 times 0.92, namely
1.38, whereas the claimed round of the product is the integer 1, whose
rendering under the stated formatting is the string 1. -/
theorem blunt_rounding_counterexample :
    (bluntStep silverConfig
        (Elem.node "projectile" [] none
          [Elem.node "armorPenetrationBlunt" [] (some "1.5") []])).childText
        "armorPenetrationBlunt" = some "1.38"
    ∧ pyRound ((3/2 : ℚ) * (23/25 : ℚ)) = 1
    ∧ formatBlunt ((1 : ℤ) : ℚ) = "1"
    ∧ ("1.38" : String) ≠ "1" := by
  refine ⟨?_, ?_, ?_, ?_⟩ <;> with_unfolding_all decide

/-- Claim C2 (amended): with a parseable old value and the rule's
modifier, the sharp-penetration field becomes the rounded product when
the modifier is below 1000 and the integer truncation of the modifier
itself (exactly the modifier whenever it is integral) otherwise,
rendered without a fractional part; the blunt-penetration field
becomes the two-decimal rendering, trailing zeros and point stripped,
of the plain product (below 1000) or of the modifier itself (at or
above 1000) — the blunt value is rounded only at the second decimal
place, not to an integer. -/
theorem penetration_transform_semantics
    (cfg : VariantConfig) (p : Elem) (x y m bm : ℚ) (sx sy : String)
    (hm : cfg.sharp_penetration_modifier = some m)
    (hbm : cfg.blunt_penetration_modifier = some bm)
    (hsx : p.childText "armorPenetrationSharp" = some sx)
    (hx : parseFloatStr sx = some x)
    (hsy : p.childText "armorPenetrationBlunt" = some sy)
    (hy : parseFloatStr sy = some y) :
    (m < 1000 → (sharpStep cfg p).childText "armorPenetrationSharp"
        = some (toString (pyRound (x * m)))) ∧
    (1000 ≤ m → (sharpStep cfg p).childText "armorPenetrationSharp"
        = some (toString (pyTrunc m))) ∧
    (∀ n : ℤ, m = (n : ℚ) → toString (pyTrunc m) = toString n) ∧
    (bm < 1000 → (bluntStep cfg p).childText "armorPenetrationBlunt"
        = some (formatBlunt (y * bm))) ∧
    (1000 ≤ bm → (bluntStep cfg p).childText "armorPenetrationBlunt"
        = some (formatBlunt bm)) := by
  refine ⟨?_, ?_, ?_, ?_, ?_⟩
  · intro hlt
    rw [childText_sharpStep cfg p m x sx hm hsx hx, if_neg (not_le.mpr hlt),
      pyTrunc_intCast]
  · intro hge
    rw [childText_sharpStep cfg p m x sx hm hsx hx, if_pos hge]
  · intro n hn
    rw [hn, pyTrunc_intCast]
  · intro hlt
    rw [childText_bluntStep cfg p bm y sy hbm hsy hy, if_neg (not_le.mpr hlt)]
  · intro hge
    rw [childText_bluntStep cfg p bm y sy hbm hsy hy, if_pos hge]

def samplePen : Elem :=
  .node "projectile" [] none
    [.node "armorPenetrationSharp" [] (some "40") [],
     .node "armorPenetrationBlunt" [] (some "1.5") []]

/-- Witness for the amended C2 theorem at the EAC_Silver rule and a
projectile with sharp 40 and blunt 1.5. -/
theorem penetration_transform_semantics_witness :
    (sharpStep silverConfig samplePen).childText "armorPenetrationSharp" = some "24" ∧
    (bluntStep silverConfig samplePen).childText "armorPenetrationBlunt" = some "1.38" := by
  have h := penetration_transform_semantics silverConfig samplePen 40 (3/2) (3/5) (23/25)
    "40" "1.5" rfl rfl (by with_unfolding_all decide) (by with_unfolding_all decide)
    (by with_unfolding_all decide) (by with_unfolding_all decide)
  obtain ⟨hs, _, _, hb, _⟩ := h
  constructor
  · rw [hs (by with_unfolding_all decide)]
    with_unfolding_all decide
  · rw [hb (by with_unfolding_all decide)]
    with_unfolding_all decide


/-! ## Claim C3: the secondary damage remap -/

theorem Elem.children_appendChild (e c : Elem) :
    (e.appendChild c).children = e.children ++ [c] := by
  cases e; rfl

theorem Elem.children_removeFirstChild (e : Elem) (t : String) :
    (e.removeFirstChild t).children = removeFirst (fun c => c.tag == t) e.children := by
  cases e; rfl

theorem filter_removeFirst_of_countP_le_one (p : α → Bool) :
    ∀ l : List α, l.countP p ≤ 1 → (removeFirst p l).filter p = [] := by
  intro l
  induction l with
  | nil => intro h; rfl
  | cons x xs ih =>
    intro h
    by_cases hx : p x
    · simp only [removeFirst, if_pos hx]
      rw [List.countP_cons_of_pos _ _ hx] at h
      have hz : xs.countP p = 0 := by omega
      rw [List.countP_eq_zero] at hz
      rw [List.filter_eq_nil_iff]
      exact hz
    · simp only [removeFirst, if_neg hx]
      rw [List.filter_cons_of_neg hx]
      rw [List.countP_cons_of_neg _ _ hx] at h
      exact ih h

theorem step_secondary_silver (p : Elem)
    (hbase : p.childText "damageAmountBase" = some "100") :
    damageTypesStep silverConfig p
      = (p.removeFirstChild "secondaryDamage").appendChild
          (Elem.node "secondaryDamage" [] none
            [mkSecondaryLi "EMP" 10, mkSecondaryLi "Psychic" 250]) := by
  have h10 : pyRound ((100 : ℚ) * (1/10)) = 10 := by with_unfolding_all decide
  have h250 : pyRound ((100 : ℚ) * (5/2)) = 250 := by with_unfolding_all decide
  have h100 : parseFloatStr "100" = some 100 := by with_unfolding_all decide
  unfold damageTypesStep
  rw [show silverConfig.damage_types
      = some (DamageTypesCfg.nested none (some [("EMP", 1/10), ("Psychic", 5/2)]))
      from rfl]
  simp only [parseFloatOpt, hbase, Option.some_bind, h100, normalizeDamageTypes,
    Option.getD_none, Option.getD_some, primaryStep]
  unfold secondaryStep
  simp only [List.map_cons, List.map_nil, h10, h250]
  rfl

/-- Claim C3: a projectile whose recomputed base damage reads 100,
transformed under the EAC_Silver damage-type mapping (the secondary
map with EMP at 0.1 and Psychic at 2.5), carries exactly one
secondary-damage block whose items are the EMP entry with amount 10
and the Psychic entry with amount 250 in declaration order; any
secondary-damage block of the baseline projectile is gone; and with an
empty secondary map the step writes nothing. -/
theorem secondary_damage_remap (p : Elem)
    (hbase : p.childText "damageAmountBase" = some "100")
    (hcount : p.children.countP (fun c => c.tag == "secondaryDamage") ≤ 1) :
    ((damageTypesStep silverConfig p).children.filter
        (fun c => c.tag == "secondaryDamage"))
      = [Elem.node "secondaryDamage" [] none
          [mkSecondaryLi "EMP" 10, mkSecondaryLi "Psychic" 250]] ∧
    pyRound ((100 : ℚ) * (1/10)) = 10 ∧ pyRound ((100 : ℚ) * (5/2)) = 250 ∧
    (∀ (q : Elem) (b : Option ℚ), secondaryStep [] q b = q) := by
  refine ⟨?_, by with_unfolding_all decide, by with_unfolding_all decide, ?_⟩
  · rw [step_secondary_silver p hbase, Elem.children_appendChild,
      Elem.children_removeFirstChild, List.filter_append,
      filter_removeFirst_of_countP_le_one _ _ hcount]
    rfl
  · intro q b
    unfold secondaryStep
    cases b with
    | none => rfl
    | some bb => simp

def sampleProjC3 : Elem :=
  .node "projectile" [] none
    [.node "damageAmountBase" [] (some "100") [],
     .node "secondaryDamage" [] none
       [.node "li" [] none
         [.node "def" [] (some "Old") [], .node "amount" [] (some "3") []]]]

/-- Witness for the C3 theorem at a concrete projectile carrying a
prior secondary-damage block. -/
theorem secondary_damage_remap_witness :
    ((damageTypesStep silverConfig sampleProjC3).children.filter
        (fun c => c.tag == "secondaryDamage"))
      = [Elem.node "secondaryDamage" [] none
          [mkSecondaryLi "EMP" 10, mkSecondaryLi "Psychic" 250]] :=
  (secondary_damage_remap sampleProjC3 (by with_unfolding_all decide)
    (by with_unfolding_all decide)).1

/-! ## Claim C4: proportional ingredient reallocation -/

theorem totalCost_eq_sum (ing : Elem) (counts : List ℤ)
    (hc : (ing.children.filter (fun c => c.tag == "li")).map
        (fun li => parseIntOpt (li.childText "count")) = counts.map some) :
    totalCostOf ing = counts.sum := by
  unfold totalCostOf
  have h2 : (ing.children.filter (fun c => c.tag == "li")).map
      (fun li => (parseIntOpt (li.childText "count")).getD 0) = counts := by
    have h3 := congrArg (List.map (fun o : Option ℤ => o.getD 0)) hc
    rw [List.map_map, List.map_map] at h3
    simp only [Function.comp_def] at h3
    simpa using h3
  rw [h2]

/-- Claim C4: in proportional-reallocation mode, with every original
ingredient count parseable, the summed total equals the sum of those
counts, every original entry is discarded, one new entry per material
of the rule's map appears in declaration order carrying the rounded
share of the total, and the rebuilt fixed-filter list holds exactly
those materials in the same order. -/
theorem proportional_reallocation (ing ff td : Elem) (counts : List ℤ)
    (hc : (ing.children.filter (fun c => c.tag == "li")).map
        (fun li => parseIntOpt (li.childText "count")) = counts.map some)
    (hff : ff.findTag "thingDefs" = some td) :
    transformIngredients "EAC_Bioferrite" bioferriteConfig ing
      = ing.withChildren
          (ing.children.filter (fun c => !(c.tag == "li")) ++
            bioferriteConfig.recipe_materials.map (fun mp =>
              mkIngredient mp.1 (some (toString (pyRound ((counts.sum : ℚ) * mp.2)))))) ∧
    totalCostOf ing = counts.sum ∧
    (transformFixedFilter "EAC_Bioferrite" ff).findTag "thingDefs"
      = some (td.withChildren
          (td.children.filter (fun c => !(c.tag == "li")) ++
            bioferriteConfig.recipe_materials.map (fun mp =>
              Elem.node "li" [] (some mp.1) []))) ∧
    bioferriteConfig.recipe_materials.map Prod.fst = ["Bioferrite", "Uranium", "Steel"] := by
  have htot := totalCost_eq_sum ing counts hc
  have hlkB : ((bioferriteConfig.recipe_materials.find? (fun mp => mp.1 == "Bioferrite")).map
      (fun mp => mp.2)).getD 0 = 2/5 := by with_unfolding_all rfl
  have hlkU : ((bioferriteConfig.recipe_materials.find? (fun mp => mp.1 == "Uranium")).map
      (fun mp => mp.2)).getD 0 = 2/5 := by with_unfolding_all rfl
  have hlkS : ((bioferriteConfig.recipe_materials.find? (fun mp => mp.1 == "Steel")).map
      (fun mp => mp.2)).getD 0 = 1/5 := by with_unfolding_all rfl
  have hmats : bioferriteConfig.recipe_materials
      = [("Bioferrite", 2/5), ("Uranium", 2/5), ("Steel", 1/5)] := rfl
  refine ⟨?_, htot, ?_, rfl⟩
  · unfold transformIngredients
    rw [if_pos rfl, htot]
    simp only [List.map_cons, List.map_nil, hlkB, hlkU, hlkS]
    rw [hmats]
    simp only [List.map_cons, List.map_nil]
  · unfold transformFixedFilter
    rw [findTag_modifyChild_self _ _ _ (fun x => Elem.tag_withChildren x _), hff]
    rw [hmats]
    simp only [Option.map_some', List.map_cons, List.map_nil]
    rfl

def sampleIngC4 : Elem :=
  .node "ingredients" [] none
    [.node "li" [] none
      [.node "filter" [] none [.node "thingDefs" [] none [.node "li" [] (some "Steel") []]],
       .node "count" [] (some "60") []],
     .node "li" [] none
      [.node "filter" [] none [.node "thingDefs" [] none [.node "li" [] (some "Prometheum") []]],
       .node "count" [] (some "20") []]]

def sampleTDC4 : Elem := .node "thingDefs" [] none [.node "li" [] (some "Steel") []]

def sampleFFC4 : Elem := .node "fixedIngredientFilter" [] none [sampleTDC4]

/-- Witness for the C4 theorem at a concrete two-ingredient recipe
block with counts 60 and 20. -/
theorem proportional_reallocation_witness :
    transformIngredients "EAC_Bioferrite" bioferriteConfig sampleIngC4
      = sampleIngC4.withChildren
          [mkIngredient "Bioferrite" (some "32"), mkIngredient "Uranium" (some "32"),
           mkIngredient "Steel" (some "16")] ∧
    totalCostOf sampleIngC4 = 80 ∧
    (transformFixedFilter "EAC_Bioferrite" sampleFFC4).findTag "thingDefs"
      = some (sampleTDC4.withChildren
          [Elem.node "li" [] (some "Bioferrite") [], Elem.node "li" [] (some "Uranium") [],
           Elem.node "li" [] (some "Steel") []]) := by
  have h := proportional_reallocation sampleIngC4 sampleFFC4 sampleTDC4 [60, 20]
    (by with_unfolding_all decide) (by with_unfolding_all decide)
  refine ⟨?_, ?_, ?_⟩
  · rw [h.1]
    with_unfolding_all decide
  · rw [h.2.1]
    with_unfolding_all decide
  · rw [h.2.2.1]
    with_unfolding_all decide

/-! ## Claim C5: the patch emitter -/

theorem pairLe_trans (a b c : String × String)
    (h1 : pairLe a b = true) (h2 : pairLe b c = true) : pairLe a c = true := by
  simp only [pairLe, Bool.or_eq_true, Bool.and_eq_true, decide_eq_true_eq,
    beq_iff_eq] at h1 h2 ⊢
  rcases h1 with h1 | ⟨e1, le1⟩ <;> rcases h2 with h2 | ⟨e2, le2⟩
  · exact Or.inl (lt_trans h1 h2)
  · exact Or.inl (e2 ▸ h1)
  · exact Or.inl (e1.symm ▸ h2)
  · exact Or.inr ⟨e1.trans e2, le_trans le1 le2⟩

theorem pairLe_total (a b : String × String) : (pairLe a b || pairLe b a) = true := by
  simp only [pairLe, Bool.or_eq_true, Bool.and_eq_true, decide_eq_true_eq, beq_iff_eq]
  rcases lt_trichotomy a.1 b.1 with h | h | h
  · exact Or.inl (Or.inl h)
  · rcases le_total a.2 b.2 with h2 | h2
    · exact Or.inl (Or.inr ⟨h, h2⟩)
    · exact Or.inr (Or.inr ⟨h.symm, h2⟩)
  · exact Or.inr (Or.inl h)

/-- Claim C5: the emitted cross-reference document holds one operation
per registration pair, ordered by the lexicographically sorted pair
list (a permutation of the input); each operation's payload maps, for
exactly the enabled rules of the table and in order, the derived ammo
identifier to the derived bullet identifier, and its xpath targets the
pair's aggregate identifier. -/
theorem patch_emitter_sorted_payload (pairs : List (String × String)) :
    generate_patch_file pairs
      = (if pairs.isEmpty then none
         else some (Elem.node "Patch" [] none ((sortPairs pairs).map mkPatchOperation))) ∧
    List.Pairwise (fun a b => pairLe a b = true) (sortPairs pairs) ∧
    (sortPairs pairs).Perm pairs ∧
    (∀ nm sd : String, (mkPatchOperation (nm, sd)).findTag "value"
      = some (Elem.node "value" [] none
          ((VARIANT_CONFIGS.filter (fun kc => kc.2.enabled)).map (fun kc =>
            Elem.node ("Ammo_" ++ nm ++ "_" ++ kc.1) []
              (some ("Bullet_" ++ nm ++ "_" ++ kc.1)) [])))) ∧
    (∀ nm sd : String, (mkPatchOperation (nm, sd)).findTag "xpath"
      = some (Elem.node "xpath" []
          (some ("Defs/CombatExtended.AmmoSetDef[defName=\"" ++ sd ++ "\"]/ammoTypes"))
          [])) := by
  refine ⟨rfl, List.sorted_mergeSort pairLe_trans pairLe_total pairs,
    List.mergeSort_perm pairs pairLe, ?_, ?_⟩
  · intro nm sd
    have hfil : VARIANT_CONFIGS.filter (fun kc => kc.2.enabled) = VARIANT_CONFIGS := rfl
    rw [hfil]
    show some _ = some _
    simp only [VARIANT_CONFIGS, List.map_cons, List.map_nil, Option.some.injEq]
    have hlitB : "_" ++ "EAC_Bioferrite" = "_EAC_Bioferrite" := rfl
    have hlitS : "_" ++ "EAC_Silver" = "_EAC_Silver" := rfl
    have hB : "Ammo_" ++ nm ++ "_" ++ "EAC_Bioferrite" = "Ammo_" ++ nm ++ "_EAC_Bioferrite" := by
      rw [String.append_assoc ("Ammo_" ++ nm) "_" "EAC_Bioferrite", hlitB]
    have hB2 : "Bullet_" ++ nm ++ "_" ++ "EAC_Bioferrite"
        = "Bullet_" ++ nm ++ "_EAC_Bioferrite" := by
      rw [String.append_assoc ("Bullet_" ++ nm) "_" "EAC_Bioferrite", hlitB]
    have hS : "Ammo_" ++ nm ++ "_" ++ "EAC_Silver" = "Ammo_" ++ nm ++ "_EAC_Silver" := by
      rw [String.append_assoc ("Ammo_" ++ nm) "_" "EAC_Silver", hlitS]
    have hS2 : "Bullet_" ++ nm ++ "_" ++ "EAC_Silver" = "Bullet_" ++ nm ++ "_EAC_Silver" := by
      rw [String.append_assoc ("Bullet_" ++ nm) "_" "EAC_Silver", hlitS]
    rw [hB, hB2, hS, hS2]
  · intro nm sd
    rfl

/-! ## Claim C6: missing triad members cause a silent skip -/

/-- Claim C6: when the ammo definition matching the rule's
discriminator is found but the linked bullet or recipe definition is
absent, derivation returns the none triple (the total model of the
tuple-of-None return; no exception exists in this model, matching the
script's conditional returns), and the per-document loop still emits
the outputs of the other rule. -/
theorem missing_triad_member_skips
    (root : Elem) (ammo_type variant_key ammo_folder nmA : String)
    (cfg : VariantConfig) (ap : Elem)
    (hfa : find_ap_ammo_def root ammo_type cfg.base_ammo_class = some ap)
    (hA : ap.childText "defName" = some nmA)
    (hmiss : find_ap_bullet_def root nmA = none ∨ find_ap_recipe root nmA = none) :
    create_cursed_ammo_variant root ammo_type variant_key cfg ammo_folder = none ∧
    (create_cursed_ammo_variant root ammo_type "EAC_Silver" silverConfig ammo_folder
        = none →
      variantOutputs root ammo_type ammo_folder
        = triadList (create_cursed_ammo_variant root ammo_type "EAC_Bioferrite"
            bioferriteConfig ammo_folder)) := by
  constructor
  · unfold create_cursed_ammo_variant
    rw [hfa]
    simp only [hA, Option.getD_some]
    rcases hmiss with hm | hm
    · rw [hm]
    · rw [hm]
      rcases find_ap_bullet_def root nmA with _ | ab <;> rfl
  · intro hsil
    unfold variantOutputs
    rw [show VARIANT_CONFIGS
        = [("EAC_Bioferrite", bioferriteConfig), ("EAC_Silver", silverConfig)] from rfl]
    simp only [List.flatMap_cons, List.flatMap_nil, List.append_nil, hsil]
    rw [if_pos (show bioferriteConfig.enabled = true from rfl),
      if_pos (show silverConfig.enabled = true from rfl)]
    simp [triadList]

def sampleAmmoOnlyDef : Elem :=
  .node "ThingDef" [("Class", "CombatExtended.AmmoDef")] none
    [.node "defName" [] (some "Ammo_Test_AP") [],
     .node "ammoClass" [] (some "ArmorPiercing") []]

def sampleDocMissingBullet : Elem := .node "Defs" [] none [sampleAmmoOnlyDef]

/-- Witness for the C6 theorem at a document holding the matching ammo
definition but no bullet definition. -/
theorem missing_triad_member_skips_witness :
    create_cursed_ammo_variant sampleDocMissingBullet "Test" "EAC_Silver" silverConfig
        "Rifle" = none ∧
    variantOutputs sampleDocMissingBullet "Test" "Rifle" = [] := by
  have h := missing_triad_member_skips sampleDocMissingBullet "Test" "EAC_Silver" "Rifle"
    "Ammo_Test_AP" silverConfig sampleAmmoOnlyDef
    (by with_unfolding_all decide) (by with_unfolding_all decide)
    (Or.inl (by with_unfolding_all decide))
  refine ⟨h.1, ?_⟩
  rw [h.2 h.1]
  with_unfolding_all decide



/-! ## Claim C7: the parenthetical label substitution -/

theorem findClose_no_close (l2 l3 : List Char) (h2 : ')' ∉ l2) :
    findClose (l2 ++ (')' :: l3)) = some l3 := by
  induction l2 with
  | nil => simp [findClose]
  | cons c cs ih =>
    simp only [List.mem_cons, not_or] at h2
    have hc : ¬(c = ')') := fun hh => h2.1 hh.symm
    simp only [List.cons_append, findClose, if_neg hc]
    exact ih h2.2

theorem subParensF_fuel (repl : List Char) :
    ∀ (n m : ℕ) (l : List Char), l.length ≤ n → l.length ≤ m →
      subParensF repl n l = subParensF repl m l := by
  intro n
  induction n with
  | zero =>
    intro m l hn _
    have hl : l = [] := List.length_eq_zero.mp (Nat.le_zero.mp hn)
    subst hl
    cases m <;> rfl
  | succ n ih =>
    intro m l hn hm
    cases l with
    | nil => cases m <;> rfl
    | cons c rest =>
      cases m with
      | zero => simp at hm
      | succ m2 =>
        simp only [List.length_cons] at hn hm
        simp only [subParensF]
        by_cases hc : c = '('
        · simp only [if_pos hc]
          cases hf : findClose rest with
          | none => rfl
          | some after =>
            have hlt := findClose_length rest after hf
            simp only [ih m2 after (by omega) (by omega)]
        · simp only [if_neg hc]
          rw [ih m2 rest (by omega) (by omega)]

theorem subParens_open (repl rest after : List Char)
    (hf : findClose rest = some after) :
    subParens repl ('(' :: rest) = repl ++ subParens repl after := by
  unfold subParens
  have hlt := findClose_length rest after hf
  simp only [List.length_cons, subParensF, hf, if_true, eq_self_iff_true, ite_true]
  rw [subParensF_fuel repl rest.length after.length after (by omega) (by omega)]

theorem subParens_other (repl : List Char) (c : Char) (rest : List Char)
    (hc : ¬(c = '(')) :
    subParens repl (c :: rest) = c :: subParens repl rest := by
  unfold subParens
  simp only [List.length_cons, subParensF, if_neg hc]

theorem subParens_concat (repl l1 l2 l3 : List Char)
    (h1 : '(' ∉ l1) (h2 : ')' ∉ l2) :
    subParens repl (l1 ++ ('(' :: (l2 ++ (')' :: l3))))
      = (l1 ++ repl) ++ subParens repl l3 := by
  induction l1 with
  | nil =>
    simp only [List.nil_append]
    rw [subParens_open repl _ l3 (findClose_no_close l2 l3 h2)]
  | cons c cs ih =>
    simp only [List.mem_cons, not_or] at h1
    have hc : ¬(c = '(') := fun hh => h1.1 hh.symm
    simp only [List.cons_append]
    rw [subParens_other repl c _ hc, ih h1.2]

/-- Counterexample to claim C7 as stated: re.sub replaces every
non-overlapping parenthesized group, so a label holding two groups has
both rewritten, whereas the claim keeps the second unchanged. -/
theorem paren_sub_counterexample :
    pyRegexSubParens "(Consecrated)" "ammo (AP) pack (FMJ)"
      = "ammo (Consecrated) pack (Consecrated)" ∧
    "ammo (Consecrated) pack (Consecrated)" ≠ "ammo (Consecrated) pack (FMJ)" := by
  constructor <;> decide

/-- Claim C7 (amended): the label rewrite of the bullet label, recipe
label, recipe job-string, and (absent a products rewrite) the recipe
description applies the parenthetical substitution, and that
substitution rewrites every parenthesized group non-greedily: each
group up to its first closing parenthesis becomes the short-label
replacement and the scan continues on the remainder, so later groups
are replaced as well, not left unchanged. -/
theorem paren_sub_replaces_all
    (cfg : VariantConfig) (r b : Elem) (vk nm : String) (s1 s2 s3 : String)
    (h1 : '(' ∉ s1.toList) (h2 : ')' ∉ s2.toList) :
    pyRegexSubParens (parenShort cfg) (s1 ++ "(" ++ s2 ++ ")" ++ s3)
      = s1 ++ parenShort cfg ++ pyRegexSubParens (parenShort cfg) s3 ∧
    (transformBullet vk cfg b).childText "label"
      = (b.childText "label").map (pyRegexSubParens (parenShort cfg)) ∧
    (transformRecipe vk cfg nm r).childText "label"
      = (r.childText "label").map (pyRegexSubParens (parenShort cfg)) ∧
    (transformRecipe vk cfg nm r).childText "jobString"
      = (r.childText "jobString").map (pyRegexSubParens (parenShort cfg)) ∧
    (r.findTag "products" = none →
      (transformRecipe vk cfg nm r).childText "description"
        = (r.childText "description").map (pyRegexSubParens (parenShort cfg))) := by
  refine ⟨?_, ?_, ?_, ?_, ?_⟩
  · unfold pyRegexSubParens
    have hdata : (s1 ++ "(" ++ s2 ++ ")" ++ s3).toList
        = s1.toList ++ ('(' :: (s2.toList ++ (')' :: s3.toList))) := by
      show (s1 ++ "(" ++ s2 ++ ")" ++ s3).data = _
      simp [String.data_append]
    rw [hdata, subParens_concat _ _ _ _ h1 h2]
    apply String.ext
    show _ = (s1 ++ parenShort cfg ++ String.mk _).data
    simp [String.data_append]
  · unfold transformBullet
    rw [childText_modifyChild_ne _ _ _ _ (tag_transformProjectile vk cfg) (by decide),
      childText_modifyChild_mapText,
      childText_modifyChild_ne _ _ _ _ (fun x => Elem.tag_withText x _) (by decide)]
  · unfold transformRecipe
    rw [childText_transformProducts_ne _ _ _ _ (by decide) (by decide),
      childText_modifyChild_ne _ _ _ _ (tag_transformFixedFilter vk) (by decide),
      childText_modifyChild_ne _ _ _ _ (tag_transformIngredients vk cfg) (by decide),
      childText_modifyChild_ne _ _ _ _ (fun x => Elem.tag_withText x _) (by decide),
      childText_modifyChild_ne _ _ _ _ (fun x => Elem.tag_withText x _) (by decide),
      childText_modifyChild_mapText,
      childText_modifyChild_ne _ _ _ _ (fun x => Elem.tag_withText x _) (by decide)]
  · unfold transformRecipe
    rw [childText_transformProducts_ne _ _ _ _ (by decide) (by decide),
      childText_modifyChild_ne _ _ _ _ (tag_transformFixedFilter vk) (by decide),
      childText_modifyChild_ne _ _ _ _ (tag_transformIngredients vk cfg) (by decide),
      childText_modifyChild_mapText,
      childText_modifyChild_ne _ _ _ _ (fun x => Elem.tag_withText x _) (by decide),
      childText_modifyChild_ne _ _ _ _ (fun x => Elem.tag_withText x _) (by decide),
      childText_modifyChild_ne _ _ _ _ (fun x => Elem.tag_withText x _) (by decide)]
  · intro hp
    unfold transformRecipe
    have hpX : Elem.findTag "products"
        ((((((r.modifyChild "defName"
          (fun el => el.withText (el.text.map (fun t => replaceLastSeg t vk)))).modifyChild
        "label"
          (fun el => el.withText (el.text.map (pyRegexSubParens (parenShort cfg))))).modifyChild
        "description"
          (fun el => el.withText (el.text.map (pyRegexSubParens (parenShort cfg))))).modifyChild
        "jobString"
          (fun el => el.withText (el.text.map (pyRegexSubParens (parenShort cfg))))).modifyChild
        "ingredients" (transformIngredients vk cfg)).modifyChild
        "fixedIngredientFilter" (transformFixedFilter vk)) = none := by
      rw [findTag_modifyChild_ne _ _ _ _ (tag_transformFixedFilter vk) (by decide),
        findTag_modifyChild_ne _ _ _ _ (tag_transformIngredients vk cfg) (by decide),
        findTag_modifyChild_ne _ _ _ _ (fun x => Elem.tag_withText x _) (by decide),
        findTag_modifyChild_ne _ _ _ _ (fun x => Elem.tag_withText x _) (by decide),
        findTag_modifyChild_ne _ _ _ _ (fun x => Elem.tag_withText x _) (by decide),
        findTag_modifyChild_ne _ _ _ _ (fun x => Elem.tag_withText x _) (by decide)]
      exact hp
    unfold transformProducts
    rw [hpX]
    rw [childText_modifyChild_ne _ _ _ _ (tag_transformFixedFilter vk) (by decide),
      childText_modifyChild_ne _ _ _ _ (tag_transformIngredients vk cfg) (by decide),
      childText_modifyChild_ne _ _ _ _ (fun x => Elem.tag_withText x _) (by decide),
      childText_modifyChild_mapText,
      childText_modifyChild_ne _ _ _ _ (fun x => Elem.tag_withText x _) (by decide),
      childText_modifyChild_ne _ _ _ _ (fun x => Elem.tag_withText x _) (by decide)]

/-- Witness for the amended C7 theorem: a two-group string and the
sample bullet label under the EAC_Silver rule. -/
theorem paren_sub_replaces_all_witness :
    pyRegexSubParens (parenShort silverConfig) "make (AP) x (FMJ)"
      = "make (Consecrated) x (Consecrated)" ∧
    (transformBullet "EAC_Silver" silverConfig sampleBulletDef).childText "label"
      = some "bullet (Consecrated)" := by
  have h := paren_sub_replaces_all silverConfig sampleRecipeDef sampleBulletDef
    "EAC_Silver" "Ammo_Test_EAC_Silver" "make " "AP" " x (FMJ)"
    (by decide) (by decide)
  obtain ⟨hrec, hbl, _⟩ := h
  constructor
  · have e : "make (AP) x (FMJ)" = "make " ++ "(" ++ "AP" ++ ")" ++ " x (FMJ)" := by decide
    rw [e, hrec]
    with_unfolding_all decide
  · rw [hbl]
    with_unfolding_all decide

/-! ## Claim C8: the products rewrite -/

theorem splitFirst_append (p : α → Bool) :
    ∀ (pre : List α) (x : α) (post : List α),
      (∀ c ∈ pre, p c = false) → p x = true →
      splitFirst p (pre ++ x :: post) = some (pre, x, post) := by
  intro pre
  induction pre with
  | nil =>
    intro x post hpre hx
    simp [splitFirst, hx]
  | cons c cs ih =>
    intro x post hpre hx
    have hc : p c = false := hpre c (by simp)
    simp only [List.cons_append, splitFirst, hc, Bool.false_eq_true, if_false,
      List.append_eq]
    rw [ih x post (fun d hd => hpre d (by simp [hd])) hx]
    rfl

set_option maxHeartbeats 1000000 in
/-- Claim C8 (amended): the first products entry keyed with the
Ammo_ convention is removed and an entry keyed by the derived ammo
identifier is appended; its text is the rounded scaled count when the
stripped original text parses as an integer and the rule carries the
modifier, and otherwise the original count text stripped of
surrounding whitespace (not the verbatim text). -/
theorem product_rewrite_semantics
    (cfg : VariantConfig) (nm : String) (r prod entry : Elem) (pre post : List Elem)
    (hprod : r.findTag "products" = some prod)
    (hsplit : prod.children = pre ++ entry :: post)
    (hpre : ∀ c ∈ pre, c.tag.startsWith "Ammo_" = false)
    (hentry : entry.tag.startsWith "Ammo_" = true) :
    ((transformProducts cfg nm r).findTag "products")
      = some (prod.withChildren (pre ++ post ++
          [Elem.node nm []
            (some (match producedCount cfg (parseIntStr ((entry.text.getD "").trim)) with
              | some n => toString n
              | none => (entry.text.getD "").trim)) []])) ∧
    (∀ c : ℤ, ∀ m : ℚ, parseIntStr ((entry.text.getD "").trim) = some c →
      cfg.amount_produced_modifier = some m →
      producedCount cfg (parseIntStr ((entry.text.getD "").trim))
        = some (pyRound ((c : ℚ) * m))) ∧
    (parseIntStr ((entry.text.getD "").trim) = none →
      ((transformProducts cfg nm r).findTag "products")
        = some (prod.withChildren (pre ++ post ++
            [Elem.node nm [] (some ((entry.text.getD "").trim)) []]))) := by
  have hmain : ((transformProducts cfg nm r).findTag "products")
      = some (prod.withChildren (pre ++ post ++
          [Elem.node nm []
            (some (match producedCount cfg (parseIntStr ((entry.text.getD "").trim)) with
              | some n => toString n
              | none => (entry.text.getD "").trim)) []])) := by
    unfold transformProducts
    split
    · rename_i hnone
      rw [hprod] at hnone
      cases hnone
    · rename_i prod2 hprod2
      rw [hprod] at hprod2
      injection hprod2 with hprod2
      subst hprod2
      split
      · rename_i hsf
        rw [hsplit,
          splitFirst_append (fun c => c.tag.startsWith "Ammo_") pre entry post hpre
            hentry] at hsf
        cases hsf
      · rename_i pep hsf
        rw [hsplit,
          splitFirst_append (fun c => c.tag.startsWith "Ammo_") pre entry post hpre
            hentry] at hsf
        injection hsf with hsf
        subst hsf
        simp only
        cases hpc : producedCount cfg (parseIntStr ((entry.text.getD "").trim)) with
        | some n =>
          dsimp only
          rw [findTag_modifyChild_ne _ _ _ _ (fun x => Elem.tag_withText x _)
              (by decide),
            findTag_modifyChild_self _ _ _ (fun x => Elem.tag_withChildren x _), hprod]
          rfl
        | none =>
          dsimp only
          rw [findTag_modifyChild_self _ _ _ (fun x => Elem.tag_withChildren x _), hprod]
          rfl
  refine ⟨hmain, ?_, ?_⟩
  · intro c m hc hm
    rw [hc]
    unfold producedCount
    rw [hm]
  · intro hnone
    rw [hmain, hnone]
    have : producedCount cfg none = none := by
      unfold producedCount
      cases cfg.amount_produced_modifier <;> rfl
    rw [this]

def sampleRecipeC8 : Elem :=
  .node "RecipeDef" [] none
    [.node "products" [] none [.node "Ammo_Test_AP" [] (some " n/a ") []]]

/-- Counterexample to claim C8 as stated: an original count text of
space n slash a space is carried over stripped of its surrounding
whitespace, not verbatim. -/
theorem product_count_strip_counterexample :
    ((transformProducts silverConfig "Ammo_Test_EAC_Silver" sampleRecipeC8).findTag
        "products")
      = some (Elem.node "products" [] none
          [Elem.node "Ammo_Test_EAC_Silver" [] (some "n/a") []]) ∧
    some "n/a" ≠ some " n/a " := by
  constructor <;> with_unfolding_all decide

/-- Witness for the amended C8 theorem at the sample recipe, whose
products entry holds count 500 and whose EAC_Silver produced-amount
modifier is one fifth. -/
theorem product_rewrite_semantics_witness :
    ((transformProducts silverConfig "Ammo_Test_EAC_Silver" sampleRecipeDef).findTag
        "products")
      = some (Elem.node "products" [] none
          [Elem.node "Ammo_Test_EAC_Silver" [] (some "100") []]) := by
  have h := product_rewrite_semantics silverConfig "Ammo_Test_EAC_Silver" sampleRecipeDef
    (Elem.node "products" [] none [Elem.node "Ammo_Test_AP" [] (some "500") []])
    (Elem.node "Ammo_Test_AP" [] (some "500") []) [] []
    (by with_unfolding_all decide) (by with_unfolding_all decide)
    (by intro c hc; simp at hc) (by with_unfolding_all decide)
  rw [h.1]
  with_unfolding_all decide

/-! ## Claim C9: the source document is never mutated -/

/-- Claim C9: the state-threaded rendering of
create_cursed_ammo_variant returns the source document unchanged along
every path — every transform is applied only to the deep copies of the
located triad nodes, never written back — while producing exactly the
pure derivation result. -/
theorem source_document_unchanged (root : Elem)
    (ammo_type variant_key ammo_folder : String) (cfg : VariantConfig) :
    (create_cursed_ammo_variant_st root ammo_type variant_key cfg ammo_folder).1
      = root ∧
    (create_cursed_ammo_variant_st root ammo_type variant_key cfg ammo_folder).2
      = create_cursed_ammo_variant root ammo_type variant_key cfg ammo_folder := by
  have key : create_cursed_ammo_variant_st root ammo_type variant_key cfg ammo_folder
      = (root, create_cursed_ammo_variant root ammo_type variant_key cfg ammo_folder) := by
    unfold create_cursed_ammo_variant_st create_cursed_ammo_variant
    split
    · rfl
    · dsimp only
      split <;> rfl
  exact ⟨congrArg Prod.fst key, congrArg Prod.snd key⟩

/-! ## Claim C10: the fixed Silver substitution -/

/-- Claim C10: in fixed-substitution mode the derived ingredient list
is exactly the Silver entry carrying the first original entry's count
text followed by the Shard entry with count one; the Silver count
falls back to the hard-coded 82 exactly when there is no ingredient
entry or the first entry has no count element. -/
theorem silver_fixed_substitution (ing : Elem) :
    (transformIngredients "EAC_Silver" silverConfig ing).children
      = ing.children.filter (fun c => !(c.tag == "li")) ++
        [mkIngredient "Silver" (ficOf ing), mkIngredient "Shard" (some "1")] ∧
    ((transformIngredients "EAC_Silver" silverConfig ing).children.filter
        (fun c => c.tag == "li"))
      = [mkIngredient "Silver" (ficOf ing), mkIngredient "Shard" (some "1")] ∧
    (∀ f c, (ing.children.filter (fun c => c.tag == "li")).head? = some f →
      f.findTag "count" = some c → ficOf ing = c.text) ∧
    ((ing.children.filter (fun c => c.tag == "li")).head? = none →
      ficOf ing = some "82") ∧
    (∀ f, (ing.children.filter (fun c => c.tag == "li")).head? = some f →
      f.findTag "count" = none → ficOf ing = some "82") := by
  have hch : (transformIngredients "EAC_Silver" silverConfig ing).children
      = ing.children.filter (fun c => !(c.tag == "li")) ++
        [mkIngredient "Silver" (ficOf ing), mkIngredient "Shard" (some "1")] := by
    unfold transformIngredients
    rw [if_neg (by decide), if_pos rfl, Elem.children_withChildren]
  refine ⟨hch, ?_, ?_, ?_, ?_⟩
  · rw [hch, List.filter_append, List.filter_filter]
    simp [mkIngredient, Elem.tag]
  · intro f c h1 h2
    unfold ficOf
    rw [h1]
    dsimp only
    rw [h2]
  · intro h1
    unfold ficOf
    rw [h1]
  · intro f h1 h2
    unfold ficOf
    rw [h1]
    dsimp only
    rw [h2]

/-- Witness for the C10 theorem at the concrete two-entry ingredient
block whose first entry carries count 60. -/
theorem silver_fixed_substitution_witness :
    (transformIngredients "EAC_Silver" silverConfig sampleIngC4).children
      = [mkIngredient "Silver" (some "60"), mkIngredient "Shard" (some "1")] ∧
    ficOf sampleIngC4 = some "60" := by
  have h := silver_fixed_substitution sampleIngC4
  have hfic : ficOf sampleIngC4 = some "60" := by
    have h2 := h.2.2.1
      (Elem.node "li" [] none
        [Elem.node "filter" [] none
          [Elem.node "thingDefs" [] none [Elem.node "li" [] (some "Steel") []]],
         Elem.node "count" [] (some "60") []])
      (Elem.node "count" [] (some "60") [])
      (by with_unfolding_all decide) (by with_unfolding_all decide)
    exact h2
  constructor
  · rw [h.1, hfic]
    with_unfolding_all decide
  · exact hfic
